import Mathlib

/-!
Verification of the `justuse` package-import system against its specification.

Each component of the source is shallowly embedded as executable Lean
definitions:

* `Buffet`        — the `buffet_table` decision procedure (src/use/buffet.py)
* `ParseFilename` — `_parse_filename` (src/use/pydantics.py)
* `Download`      — `_download_artifact` (src/use/pimp.py)
* `ParseName`     — `_parse_name` (src/use/pimp.py)
* `Reg`           — the sqlite registry: `_save_package_info`,
                    `_check_db_for_installation`, `Use.del_entry`,
                    `Use.cleanup` (src/use/pimp.py, src/use/main.py)
* `AutoInstall`   — the candidate loop of `_auto_install` (src/use/pimp.py)
* `Compat`        — `_modules_are_compatible` / `_is_compatible` / `_check`
                    (src/use/pimp.py)
* `Reloader`      — one iteration of `ModuleReloader.run_threaded`
                    (src/use/main.py)
-/

namespace Buffet

/-- The eight actions the buffet table can dispatch to, in source order. -/
inductive Action
  | importPublicVerifyAutoInstall
  | autoInstallDirect
  | suggestVersionAndHash
  | suggestHash
  | suggestVersion
  | importPublicVerify
  | importPublicNoChecks
  | cantImport
deriving DecidableEq, Repr

/-- One `case` arm of the Python `match`: a pattern over the four booleans
(`none` is the wildcard `_`) together with the dispatched action. -/
structure Arm where
  v : Option Bool
  h : Option Bool
  p : Option Bool
  a : Option Bool
  act : Action
deriving DecidableEq, Repr

/-- The ordered arms of `buffet_table`, transcribed from src/use/buffet.py
lines 30-37.  `1` is `some true`, `0` is `some false`, `_` is `none`. -/
def arms : List Arm :=
  [ ⟨some true,  some true,  some true,  some true,  .importPublicVerifyAutoInstall⟩
  , ⟨some true,  some true,  some false, some true,  .autoInstallDirect⟩
  , ⟨some true,  none,       some true,  some false, .importPublicVerify⟩
  , ⟨some false, some false, none,       some true,  .suggestVersionAndHash⟩
  , ⟨some true,  some false, none,       some true,  .suggestHash⟩
  , ⟨some false, some true,  none,       some true,  .suggestVersion⟩
  , ⟨some false, none,       some true,  some false, .importPublicNoChecks⟩
  , ⟨none,       none,       some false, some false, .cantImport⟩ ]

/-- Whether a pattern arm matches the four booleans. -/
def armMatches (c : Arm) (v h p a : Bool) : Bool :=
  c.v.all (· == v) && c.h.all (· == h) && c.p.all (· == p) && c.a.all (· == a)

/-- `buffet_table` from src/use/buffet.py: Python `match` takes the first
matching arm; falling through every arm makes the function return `None`. -/
def buffet_table (v h p a : Bool) : Option Action :=
  (arms.find? (fun c => armMatches c v h p a)).map (·.act)

end Buffet

/-- C1: every 4-tuple of booleans (version given, hash given, publicly
importable, auto-install requested) matches exactly one of the 8 documented
arms of `buffet_table`, the function returns that arm's action — in particular
(1,1,1,1) dispatches to the public-import→verify→auto-install chain,
(1,0,*,1) to the missing-hash suggestion failure and (*,*,0,0) to the
cannot-import failure — and no input falls through to the undefined branch. -/
theorem buffet_table_cases_exhaustive :
    (∀ v h p a : Bool,
      (Buffet.arms.filter (fun c => Buffet.armMatches c v h p a)).length = 1) ∧
    (∀ v h p a : Bool, ∀ c ∈ Buffet.arms,
      Buffet.armMatches c v h p a = true →
        Buffet.buffet_table v h p a = some c.act) ∧
    (∀ v h p a : Bool, (Buffet.buffet_table v h p a).isSome) ∧
    Buffet.buffet_table true true true true =
      some .importPublicVerifyAutoInstall ∧
    (∀ p : Bool, Buffet.buffet_table true false p true = some .suggestHash) ∧
    (∀ v h : Bool, Buffet.buffet_table v h false false = some .cantImport) := by
  refine ⟨?_, ?_, ?_, ?_, ?_, ?_⟩ <;> decide

namespace ParseFilename

/-- First index at which `pat` occurs as a sublist of `s` (Python
`str.index` semantics, restricted to found-or-not). -/
def subIdx (pat : List Char) : List Char → Option Nat
  | [] => if pat = [] then some 0 else none
  | c :: rest =>
    if pat.isPrefixOf (c :: rest) then some 0
    else (subIdx pat rest).map (· + 1)

/-- Index of the last occurrence of `c` in `s` (Python `str.rfind`), or
`none` when absent. -/
def rfindChar (c : Char) (s : List Char) : Option Nat :=
  match s with
  | [] => none
  | d :: rest =>
    match rfindChar c rest with
    | some i => some (i + 1)
    | none => if d = c then some 0 else none

/-- `str.split(sep)` for a single-character separator: adjacent separators
produce empty tokens and the empty string yields `[""]`, as in Python. -/
def splitOnChar (sep : Char) : List Char → List (List Char)
  | [] => [[]]
  | c :: rest =>
    if c = sep then [] :: splitOnChar sep rest
    else
      match splitOnChar sep rest with
      | [] => [[c]]
      | t :: ts => (c :: t) :: ts

/-- `pathlib.PurePath.name`: the component after the last `/`. -/
def afterLastSlash (s : List Char) : List Char :=
  match rfindChar '/' s with
  | some i => s.drop (i + 1)
  | none => s

/-- Length of `pathlib.PurePath.stem` of a path component: the name minus
its last suffix, where a suffix requires a `.` at a position `i` with
`0 < i < len - 1`. -/
def stemLen (name : List Char) : Nat :=
  match rfindChar '.' name with
  | some i => if 0 < i ∧ i < name.length - 1 then i else name.length
  | none => name.length

/-- The parsed parts produced by `_parse_filename`
(src/use/pydantics.py lines 288-333); `none` is Python `None`. -/
structure Parsed where
  distribution : Option String
  version : Option String
  build_tag : Option String
  python_tag : Option String
  abi_tag : Option String
  platform_tag : Option String
  ext : String
  packagetype : String
deriving DecidableEq, Repr

/-- Populate the fields from the `-`-split tokens, exactly as the
`np == 2/3/5/6` chain in the source; any other count returns `{}`. -/
def fromTokens (toks : List (List Char)) (ext ptype : List Char) :
    Option Parsed :=
  match toks with
  | [d, v] =>
    some ⟨some ⟨d⟩, some ⟨v⟩, none, none, none, none, ⟨ext⟩, ⟨ptype⟩⟩
  | [d, v, py] =>
    some ⟨some ⟨d⟩, some ⟨v⟩, none, some ⟨py⟩, none, none, ⟨ext⟩, ⟨ptype⟩⟩
  | [d, v, py, abi, plat] =>
    some ⟨some ⟨d⟩, some ⟨v⟩, none, some ⟨py⟩, some ⟨abi⟩, some ⟨plat⟩,
      ⟨ext⟩, ⟨ptype⟩⟩
  | [d, v, b, py, abi, plat] =>
    some ⟨some ⟨d⟩, some ⟨v⟩, some ⟨b⟩, some ⟨py⟩, some ⟨abi⟩, some ⟨plat⟩,
      ⟨ext⟩, ⟨ptype⟩⟩
  | _ => none

/-- `_parse_filename` from src/use/pydantics.py.  The `.tar` branch slices
`ext = filename[filename.index(".tar"):]` (leading dot included) and then
`rest = pp.name[:-len(ext) - 1]`; the non-tar branch sets
`ext = pp.name[len(pp.stem) + 1:]` and uses the same `rest` slice. -/
def parseFilename (filename : String) : Option Parsed :=
  let fn := filename.toList
  let name := afterLastSlash fn
  match subIdx ".tar".toList fn with
  | some i =>
    let ext := fn.drop i
    let rest := name.take (name.length - ext.length - 1)
    fromTokens (splitOnChar '-' rest) ext "source".toList
  | none =>
    let ext := name.drop (stemLen name + 1)
    let rest := name.take (name.length - ext.length - 1)
    fromTokens (splitOnChar '-' rest) ext "bdist".toList

/-- The stem the amended claim describes: the text before the first `.tar`
minus one further character for tar archives; otherwise the filename minus
its dot-extension, or minus its final character when it has no proper
dot-extension.  Stated independently of the slice arithmetic in
`parseFilename`. -/
def specStem (fn : List Char) : List Char :=
  match subIdx ".tar".toList fn with
  | some i => fn.take (i - 1)
  | none => fn.take (min (stemLen fn) (fn.length - 1))

/-- The parse the amended claim predicts: split the (corrected) stem on `-`
and populate by token count, with the extension and package type read off
the same way. -/
def specParse (fn : List Char) : Option Parsed :=
  let toks := splitOnChar '-' (specStem fn)
  match subIdx ".tar".toList fn with
  | some i => fromTokens toks (fn.drop i) "source".toList
  | none => fromTokens toks (fn.drop (stemLen fn + 1)) "bdist".toList

end ParseFilename

namespace ParseFilename

theorem rfindChar_none_of_not_mem (c : Char) :
    ∀ s : List Char, c ∉ s → rfindChar c s = none := by
  intro s
  induction s with
  | nil => intro _; rfl
  | cons d rest ih =>
    intro h
    simp only [List.mem_cons, not_or] at h
    unfold rfindChar
    rw [ih h.2]
    have hd : d ≠ c := fun he => h.1 he.symm
    simp [hd]

theorem afterLastSlash_eq_self (s : List Char) (h : '/' ∉ s) :
    afterLastSlash s = s := by
  unfold afterLastSlash
  rw [rfindChar_none_of_not_mem _ s h]

theorem subIdx_le (pat : List Char) :
    ∀ (s : List Char) (i : Nat), subIdx pat s = some i → i ≤ s.length := by
  intro s
  induction s with
  | nil =>
    intro i h
    unfold subIdx at h
    split at h
    · simp only [Option.some.injEq] at h; omega
    · simp at h
  | cons c rest ih =>
    intro i h
    unfold subIdx at h
    split at h
    · simp only [Option.some.injEq] at h; omega
    · cases hj : subIdx pat rest with
      | none => rw [hj] at h; simp at h
      | some j =>
        rw [hj] at h
        simp only [Option.map_some', Option.some.injEq] at h
        have := ih j hj
        simp only [List.length_cons]
        omega

theorem rfindChar_lt (c : Char) :
    ∀ (s : List Char) (i : Nat), rfindChar c s = some i → i < s.length := by
  intro s
  induction s with
  | nil => intro i h; simp [rfindChar] at h
  | cons d rest ih =>
    intro i h
    unfold rfindChar at h
    cases hr : rfindChar c rest with
    | some j =>
      rw [hr] at h
      simp only [Option.some.injEq] at h
      have := ih j hr
      simp only [List.length_cons]
      omega
    | none =>
      rw [hr] at h
      by_cases hd : d = c
      · rw [if_pos hd] at h
        simp only [Option.some.injEq] at h
        simp [← h]
      · rw [if_neg hd] at h
        simp at h

theorem stemLen_le (s : List Char) : stemLen s ≤ s.length := by
  cases hr : rfindChar '.' s with
  | some i =>
    have := rfindChar_lt '.' s i hr
    simp only [stemLen, hr]
    split <;> omega
  | none => simp [stemLen, hr]

end ParseFilename

/-- C8: amended claim.  For every release filename (without path
separators), `_parse_filename` splits a stem on `-` and populates fields
strictly by token count (2 → distribution+version; 3 adds python_tag;
5 → distribution, version, python_tag, abi_tag, platform_tag; 6 places
build_tag before python_tag; other counts leave the release unparsed) —
where the stem is the filename minus its dot-extension (or minus its final
character when there is no proper dot-extension), except that for filenames
containing `.tar` the code takes everything before the `.tar` and drops one
further trailing character. -/
theorem parseFilename_eq_specParse (fn : String)
    (h : '/' ∉ fn.toList) :
    ParseFilename.parseFilename fn = ParseFilename.specParse fn.toList := by
  have hA := ParseFilename.afterLastSlash_eq_self fn.toList h
  cases hsub : ParseFilename.subIdx ".tar".toList fn.toList with
  | some i =>
    have hi := ParseFilename.subIdx_le _ _ _ hsub
    have heq : fn.toList.length - (List.drop i fn.toList).length - 1
        = i - 1 := by
      rw [List.length_drop]; omega
    simp only [ParseFilename.parseFilename, ParseFilename.specParse,
      ParseFilename.specStem, hA, hsub, heq]
  | none =>
    have hs := ParseFilename.stemLen_le fn.toList
    have heq : fn.toList.length -
          (List.drop (ParseFilename.stemLen fn.toList + 1) fn.toList).length
          - 1
        = min (ParseFilename.stemLen fn.toList) (fn.toList.length - 1) := by
      rw [List.length_drop]; omega
    simp only [ParseFilename.parseFilename, ParseFilename.specParse,
      ParseFilename.specStem, hA, hsub, heq]

theorem parseFilename_eq_specParse_witness :
    ('/' ∉ "numpy-1.19.5-cp36-cp36m-macosx_10_9_x86_64.whl".toList) ∧
    ParseFilename.parseFilename
        "numpy-1.19.5-cp36-cp36m-macosx_10_9_x86_64.whl" =
      ParseFilename.specParse
        "numpy-1.19.5-cp36-cp36m-macosx_10_9_x86_64.whl".toList :=
  ⟨by decide,
   parseFilename_eq_specParse
     "numpy-1.19.5-cp36-cp36m-macosx_10_9_x86_64.whl" (by decide)⟩

/-- C8: counterexample to the claim as stated.  For `pkg-1.0.tar.gz` the
claimed rule — split the stem, i.e. the filename minus its extension
`.tar.gz`, on `-` — yields version `1.0`, but `_parse_filename` drops one
extra character for tar archives and records version `1.`. -/
theorem parseFilename_tar_stem_counterexample :
    ParseFilename.parseFilename "pkg-1.0.tar.gz" =
      some ⟨some "pkg", some "1.", none, none, none, none,
        ".tar.gz", "source"⟩ ∧
    (ParseFilename.fromTokens
        (ParseFilename.splitOnChar '-' "pkg-1.0".toList)
        ".tar.gz".toList "source".toList).map (fun q => q.version) =
      some (some "1.0") ∧
    (some "1." : Option String) ≠ some "1.0" := by
  refine ⟨by decide, by decide, by decide⟩

namespace Download

/-- Environment for `_download_artifact` (src/use/pimp.py lines 589-615):
the artifact file already on disk (if any), the bytes returned by the first
and by the retry GET, and the configured hash algorithm as an
integer-valued digest function (`int(hash_algo.value(data).hexdigest(), 16)`). -/
structure Env where
  existing : Option String
  fetch1 : String
  fetch2 : String
  digestOf : String → Nat

/-- Result of a `_download_artifact` call: whether it raised the final
`ImportError`, what the artifact file contains afterwards, and how many
GET requests were issued. -/
structure Outcome where
  raised : Bool
  fileOnDisk : Option String
  fetches : Nat
deriving DecidableEq, Repr

/-- The fresh-download path: first GET and write; on digest mismatch one
retry GET and write; then a final verification that re-reads the file and
raises on mismatch. -/
def downloadFresh (env : Env) (hashValue : Nat) : Outcome :=
  let current := env.fetch1
  let retried :=
    if env.digestOf current ≠ hashValue then (env.fetch2, 2) else (current, 1)
  if env.digestOf retried.1 ≠ hashValue then ⟨true, some retried.1, retried.2⟩
  else ⟨false, some retried.1, retried.2⟩

/-- `_download_artifact`: if the artifact already exists with a matching
digest, return without downloading; otherwise download (with one retry). -/
def downloadArtifact (env : Env) (hashValue : Nat) : Outcome :=
  if env.existing.map env.digestOf = some hashValue then
    ⟨false, env.existing, 0⟩
  else downloadFresh env hashValue

end Download

/-- C5: after writing a downloaded artifact its digest is recomputed; on
mismatch it is re-downloaded exactly once; if the recomputed digest still
differs from the expected hash the call raises (never returning an
unverified artifact as valid); and when the artifact already exists with a
matching digest no download is performed at all.  Concretely: (1) existing
match → zero fetches and no raise; (2) any non-raising return has a file on
disk whose digest equals the expected hash; (3) a first-fetch mismatch
forces exactly two fetches, and a second mismatch raises; (4) never more
than two fetches. -/
theorem download_artifact_verified :
    (∀ (env : Download.Env) (hv : Nat) (c : String),
      env.existing = some c → env.digestOf c = hv →
        Download.downloadArtifact env hv = ⟨false, some c, 0⟩) ∧
    (∀ (env : Download.Env) (hv : Nat),
      (Download.downloadArtifact env hv).raised = false →
        ∃ c, (Download.downloadArtifact env hv).fileOnDisk = some c ∧
          env.digestOf c = hv) ∧
    (∀ (env : Download.Env) (hv : Nat),
      env.existing.map env.digestOf ≠ some hv →
      env.digestOf env.fetch1 ≠ hv →
        (Download.downloadArtifact env hv).fetches = 2 ∧
        (env.digestOf env.fetch2 ≠ hv →
          Download.downloadArtifact env hv = ⟨true, some env.fetch2, 2⟩)) ∧
    (∀ (env : Download.Env) (hv : Nat),
      (Download.downloadArtifact env hv).fetches ≤ 2) := by
  refine ⟨?_, ?_, ?_, ?_⟩
  · intro env hv c he hd
    simp [Download.downloadArtifact, he, hd]
  · intro env hv h
    by_cases hm : env.existing.map env.digestOf = some hv
    · cases he : env.existing with
      | none => rw [he] at hm; simp at hm
      | some c =>
        rw [he] at hm
        simp only [Option.map_some', Option.some.injEq] at hm
        refine ⟨c, ?_, hm⟩
        simp [Download.downloadArtifact, he, hm]
    · simp only [Download.downloadArtifact, if_neg hm] at h ⊢
      by_cases h1 : env.digestOf env.fetch1 = hv
      · exact ⟨env.fetch1, by simp [Download.downloadFresh, h1], h1⟩
      · by_cases h2 : env.digestOf env.fetch2 = hv
        · exact ⟨env.fetch2, by simp [Download.downloadFresh, h1, h2], h2⟩
        · exfalso
          simp [Download.downloadFresh, h1, h2] at h
  · intro env hv hm h1
    constructor
    · simp only [Download.downloadArtifact, if_neg hm]
      simp only [Download.downloadFresh, if_pos h1]
      split <;> rfl
    · intro h2
      simp only [Download.downloadArtifact, if_neg hm]
      simp [Download.downloadFresh, h1, h2]
  · intro env hv
    by_cases hm : env.existing.map env.digestOf = some hv
    · simp [Download.downloadArtifact, hm]
    · simp only [Download.downloadArtifact, if_neg hm]
      by_cases h1 : env.digestOf env.fetch1 = hv
      · simp [Download.downloadFresh, h1]
      · by_cases h2 : env.digestOf env.fetch2 = hv
        · simp [Download.downloadFresh, h1, h2]
        · simp [Download.downloadFresh, h1, h2]

theorem download_artifact_verified_witness :
    Download.downloadArtifact ⟨some "ab", "x", "y", String.length⟩ 2
        = ⟨false, some "ab", 0⟩ ∧
    (Download.downloadArtifact ⟨none, "a", "abcd", String.length⟩ 3).fetches
        = 2 :=
  ⟨download_artifact_verified.1 ⟨some "ab", "x", "y", String.length⟩ 2 "ab"
      rfl rfl,
   (download_artifact_verified.2.2.1 ⟨none, "a", "abcd", String.length⟩ 3
      (by decide) (by decide)).1⟩

namespace ParseName

/-- Failures `_parse_name` can raise: the explicit `ImportError` for more
than one `/`, and the `assert match` failure inside the `old()` fallback. -/
inductive Err
  | importErrorMultipleSlash
  | assertionError
deriving DecidableEq, Repr

/-- Membership in the regex class `[a-zA-Z0-9._]` (ASCII, as Python `re`). -/
def classChar (c : Char) : Bool :=
  ('a' ≤ c && c ≤ 'z') || ('A' ≤ c && c ≤ 'Z') || ('0' ≤ c && c ≤ '9')
    || c == '.' || c == '_'

/-- Membership in the regex class `[^/.]` of the `pkg_name` group. -/
def pkgChar (c : Char) : Bool :=
  !(c == '/') && !(c == '.')

/-- Number of occurrences of `c` (Python `str.count`). -/
def countChar (c : Char) (s : List Char) : Nat :=
  (s.filter (· == c)).length

/-- Python `str.partition` at the first occurrence of `c`, dropping the
separator (only the before/after parts are used by `_parse_name`). -/
def partitionAt (c : Char) : List Char → List Char × List Char
  | [] => ([], [])
  | d :: rest =>
    if d = c then ([], rest)
    else
      let p := partitionAt c rest
      (d :: p.1, p.2)

/-- Whether the optional group `(?P<rest>[a-zA-Z0-9._]+)?` followed by `$`
matches the remainder: it must be empty or consist entirely of class
characters. -/
def restMatches (rem : List Char) : Bool :=
  rem.isEmpty || rem.all classChar

/-- Backtracking search for the group `(?P<pkg_name>[^/.]+)`: greedy, so the
largest `k ≥ 1` (bounded by the run of `[^/.]` characters) whose remainder
matches wins.  (The `/?` between the groups never consumes, since `old()`
is only called on names without `/`.) -/
def tryLen (s : List Char) : Nat → Option Nat
  | 0 => none
  | k + 1 => if restMatches (s.drop (k + 1)) then some (k + 1) else tryLen s k

/-- The fallback `old()` inside `_parse_name`: Python
`re.match(r"(?P<pkg_name>[^/.]+)/?(?P<rest>[a-zA-Z0-9._]+)?$", name)`,
returning the `pkg_name` group, or `none` when the match fails (then the
`assert` fires). -/
def oldRegex (s : List Char) : Option (List Char) :=
  (tryLen s (s.takeWhile pkgChar).length).map (fun k => s.take k)

/-- `_parse_name` from src/use/pimp.py lines 372-407.  Python truthiness of
a string is nonemptiness; `"/" in name` is character membership. -/
def parseName (name : String) : Except Err (Option String × Option String) :=
  if name.toList = [] then .ok (none, none)
  else if '/' ∈ name.toList then
    if 1 < countChar '/' name.toList then .error .importErrorMultipleSlash
    else
      .ok (some ⟨(partitionAt '/' name.toList).1⟩,
        some ⟨(partitionAt '/' name.toList).2⟩)
  else
    match oldRegex name.toList with
    | none => .error .assertionError
    | some pkg => .ok (some ⟨pkg⟩, some name)

theorem mem_of_countChar_pos (c : Char) :
    ∀ s : List Char, 0 < countChar c s → c ∈ s := by
  intro s
  induction s with
  | nil => intro h; simp [countChar] at h
  | cons d rest ih =>
    intro h
    by_cases hd : d = c
    · exact hd ▸ List.mem_cons_self d rest
    · have hb : (d == c) = false := beq_eq_false_iff_ne.mpr hd
      simp only [countChar, List.filter_cons, hb, Bool.false_eq_true,
        if_false] at h
      exact List.mem_cons_of_mem d (ih h)

theorem partitionAt_spec (c : Char) :
    ∀ cs : List Char, c ∈ cs →
      cs = (partitionAt c cs).1 ++ c :: (partitionAt c cs).2 ∧
      c ∉ (partitionAt c cs).1 := by
  intro cs
  induction cs with
  | nil => intro h; cases h
  | cons d rest ih =>
    intro h
    by_cases hd : d = c
    · subst hd
      simp [partitionAt]
    · have hr : c ∈ rest := by
        cases List.mem_cons.mp h with
        | inl he => exact absurd he.symm hd
        | inr hm => exact hm
      obtain ⟨h1, h2⟩ := ih hr
      constructor
      · simp only [partitionAt, if_neg hd]
        rw [List.cons_append]
        exact congrArg (d :: ·) h1
      · simp only [partitionAt, if_neg hd]
        intro hm
        cases List.mem_cons.mp hm with
        | inl he => exact hd he.symm
        | inr hm2 => exact h2 hm2

theorem takeWhile_take (p : Char → Bool) :
    ∀ s : List Char, s.take (s.takeWhile p).length = s.takeWhile p := by
  intro s
  induction s with
  | nil => rfl
  | cons d rest ih =>
    by_cases hd : p d
    · simp [List.takeWhile_cons, hd, ih]
    · simp [List.takeWhile_cons, hd]

theorem tryLen_none (s : List Char) :
    ∀ n : Nat, (∀ k, 0 < k → k ≤ n → restMatches (s.drop k) = false) →
      tryLen s n = none := by
  intro n
  induction n with
  | zero => intro _; rfl
  | succ m ih =>
    intro h
    unfold tryLen
    rw [h (m + 1) (Nat.succ_pos m) (Nat.le_refl _)]
    simp only [Bool.false_eq_true, if_false]
    exact ih fun k hk hkm => h k hk (Nat.le_succ_of_le hkm)

theorem oldRegex_of_restMatches (s : List Char)
    (hrun : 0 < (s.takeWhile pkgChar).length)
    (hrest : restMatches (s.drop (s.takeWhile pkgChar).length) = true) :
    oldRegex s = some (s.takeWhile pkgChar) := by
  obtain ⟨m, hm⟩ := Nat.exists_eq_succ_of_ne_zero (Nat.pos_iff_ne_zero.mp hrun)
  simp only [Nat.succ_eq_add_one] at hm
  unfold oldRegex
  rw [hm]
  unfold tryLen
  rw [← hm, hrest]
  simp only [if_true, Option.map_some']
  rw [takeWhile_take]

end ParseName

/-- C10: amended claim.  `_parse_name` raises ImportError on more than one
`/`; with exactly one `/` it returns (text before, text after); on the
empty string it returns (None, None); with no `/` it returns (the leading
run of `[^/.]` characters, the whole string) provided the fallback pattern
matches, i.e. the string starts with at least one character other than `.`
and everything after that leading run lies in `[a-zA-Z0-9._]` — when the
pattern fails to match (e.g. a leading dot, or a character such as a dash
after the first dot) the internal `assert` raises instead of returning. -/
theorem parse_name_slash_discipline :
    (∀ s : String, 1 < ParseName.countChar '/' s.toList →
      ParseName.parseName s = .error .importErrorMultipleSlash) ∧
    (∀ s : String, ParseName.countChar '/' s.toList = 1 →
      ∃ pre post : List Char, s.toList = pre ++ '/' :: post ∧ '/' ∉ pre ∧
        ParseName.parseName s = .ok (some ⟨pre⟩, some ⟨post⟩)) ∧
    ParseName.parseName "" = .ok (none, none) ∧
    (∀ s : String, '/' ∉ s.toList →
      0 < (s.toList.takeWhile ParseName.pkgChar).length →
      ParseName.restMatches
        (s.toList.drop (s.toList.takeWhile ParseName.pkgChar).length)
        = true →
      ParseName.parseName s =
        .ok (some ⟨s.toList.takeWhile ParseName.pkgChar⟩, some s)) ∧
    (∀ s : String, s.toList ≠ [] → '/' ∉ s.toList →
      (∀ k, 0 < k → k ≤ (s.toList.takeWhile ParseName.pkgChar).length →
        ParseName.restMatches (s.toList.drop k) = false) →
      ParseName.parseName s = .error .assertionError) := by
  refine ⟨?_, ?_, rfl, ?_, ?_⟩
  · intro s h
    have hmem : '/' ∈ s.toList :=
      ParseName.mem_of_countChar_pos _ _ (by omega)
    have hne : s.toList ≠ [] := by
      intro he; rw [he] at hmem; cases hmem
    simp only [ParseName.parseName, if_neg hne, if_pos hmem, if_pos h]
  · intro s h
    have hmem : '/' ∈ s.toList :=
      ParseName.mem_of_countChar_pos _ _ (by omega)
    have hne : s.toList ≠ [] := by
      intro he; rw [he] at hmem; cases hmem
    have hnot : ¬ (1 < ParseName.countChar '/' s.toList) := by
      rw [h]; exact Nat.lt_irrefl 1
    obtain ⟨hsplit, hnotmem⟩ := ParseName.partitionAt_spec '/' s.toList hmem
    refine ⟨(ParseName.partitionAt '/' s.toList).1,
      (ParseName.partitionAt '/' s.toList).2, hsplit, hnotmem, ?_⟩
    simp only [ParseName.parseName, if_neg hne, if_pos hmem, if_neg hnot]
  · intro s hslash hrun hrest
    have hne : s.toList ≠ [] := by
      intro he
      rw [he] at hrun
      simp at hrun
    have ho := ParseName.oldRegex_of_restMatches s.toList hrun hrest
    simp only [ParseName.parseName, if_neg hne, if_neg hslash, ho]
  · intro s hne hslash hfail
    have hnone := ParseName.tryLen_none s.toList _ hfail
    simp only [ParseName.parseName, if_neg hne, if_neg hslash,
      ParseName.oldRegex, hnone, Option.map_none']

/-- C10: counterexample to the claim as stated.  `.x` contains no `/`, yet
`_parse_name` does not return a (package, module) pair for it: the fallback
regex `(?P<pkg_name>[^/.]+)...` cannot match a leading dot, so the
`assert match` fails with an AssertionError. -/
theorem parse_name_leading_dot_counterexample :
    ParseName.parseName ".x" = .error .assertionError := rfl

theorem parse_name_slash_discipline_witness :
    ParseName.parseName "a/b/c" = .error .importErrorMultipleSlash ∧
    (∃ pre post : List Char, "pkg/mod".toList = pre ++ '/' :: post ∧
      '/' ∉ pre ∧
      ParseName.parseName "pkg/mod" = .ok (some ⟨pre⟩, some ⟨post⟩)) ∧
    ParseName.parseName "numpy" = .ok (some "numpy", some "numpy") ∧
    ParseName.parseName "nu.m-py" = .error .assertionError := by
  refine ⟨parse_name_slash_discipline.1 "a/b/c" (by decide),
    parse_name_slash_discipline.2.1 "pkg/mod" (by decide), ?_, ?_⟩
  · have h := parse_name_slash_discipline.2.2.2.1 "numpy" (by decide)
      (by decide) (by decide)
    rw [h]
    rfl
  · refine parse_name_slash_discipline.2.2.2.2 "nu.m-py" (by decide)
      (by decide) ?_
    intro k h1 h2
    have he : ("nu.m-py".toList.takeWhile ParseName.pkgChar).length = 2 :=
      rfl
    rw [he] at h2
    interval_cases k
    · rfl
    · rfl

namespace Reg

/-- A row of the `distributions` table (src/use/main.py schema). -/
structure DistRow where
  id : Nat
  name : String
  version : String
  installationPath : String
  purePythonPackage : Bool
deriving DecidableEq, Repr

/-- A row of the `artifacts` table. -/
structure ArtRow where
  id : Nat
  distributionId : Nat
  artifactPath : String
deriving DecidableEq, Repr

/-- A row of the `hashes` table (primary key (algo, value)). -/
structure HashRow where
  artifactId : Nat
  algo : String
  value : Nat
deriving DecidableEq, Repr

/-- The registry store.  `nextDistId`/`nextArtId` model the AUTOINCREMENT
sequences of the two tables. -/
structure Registry where
  dists : List DistRow
  arts : List ArtRow
  hshs : List HashRow
  nextDistId : Nat
  nextArtId : Nat
deriving DecidableEq, Repr

/-- A freshly created schema. -/
def emptyRegistry : Registry := ⟨[], [], [], 1, 1⟩

/-- The `WHERE name=? AND version=?` condition. -/
def distMatches (n v : String) (d : DistRow) : Bool :=
  d.name == n && d.version == v

/-- `_save_package_info` (src/use/pimp.py lines 552-584): if no
distribution with this (name, version) exists, INSERT a distribution, an
artifact whose `distribution_id` is the distribution INSERT's lastrowid,
and (OR IGNORE, unique on (algo, value)) a hash whose `artifact_id` is the
artifact INSERT's lastrowid; then commit.  `pure_python_package` is written
as `installation_path is None`, which is always false here because the
beartyped parameter is a `Path`. -/
def savePackageInfo (σ : Registry) (pkg ver instPath artPath algo : String)
    (hval : Nat) : Registry :=
  if σ.dists.any (distMatches pkg ver) then σ
  else
    let d : DistRow := ⟨σ.nextDistId, pkg, ver, instPath, false⟩
    let a : ArtRow := ⟨σ.nextArtId, d.id, artPath⟩
    let hs :=
      if σ.hshs.any (fun h => h.algo == algo && h.value == hval) then σ.hshs
      else σ.hshs ++ [⟨a.id, algo, hval⟩]
    ⟨σ.dists ++ [d], σ.arts ++ [a], hs, σ.nextDistId + 1, σ.nextArtId + 1⟩

/-- `Use.del_entry` (src/use/main.py lines 341-352): delete the hashes of
the artifacts of the matching distributions, then those artifacts, then the
distributions, and commit. -/
def delEntry (σ : Registry) (n v : String) : Registry :=
  let distIds := (σ.dists.filter (distMatches n v)).map (·.id)
  let artIds :=
    (σ.arts.filter (fun a => distIds.contains a.distributionId)).map (·.id)
  ⟨σ.dists.filter (fun d => !(distMatches n v d)),
   σ.arts.filter (fun a => !(distIds.contains a.distributionId)),
   σ.hshs.filter (fun h => !(artIds.contains h.artifactId)),
   σ.nextDistId, σ.nextArtId⟩

/-- The row shape returned by `_check_db_for_installation`
(a `RegistryEntry`). -/
structure Entry where
  artifactPath : String
  installationPath : String
  purePythonPackage : Bool
deriving DecidableEq, Repr

/-- The rows of the lookup query.  NOTE: the source's JOIN condition is
`artifacts.id = distributions.id` — the artifact's own id, not its
`distribution_id`. -/
def lookupRows (σ : Registry) (n v : String) : List (ArtRow × DistRow) :=
  (σ.dists.filter (distMatches n v)).bind
    (fun d => (σ.arts.filter (fun a => a.id == d.id)).map (fun a => (a, d)))

/-- `ORDER BY artifacts.id DESC` followed by `fetchone()`: the row with the
greatest artifact id, or none. -/
def pickMax : List (ArtRow × DistRow) → Option (ArtRow × DistRow)
  | [] => none
  | r :: rs =>
    match pickMax rs with
    | none => some r
    | some q => if q.1.id ≤ r.1.id then some r else some q

/-- `_check_db_for_installation` (src/use/pimp.py lines 411-428). -/
def checkDbForInstallation (σ : Registry) (n v : String) : Option Entry :=
  (pickMax (lookupRows σ n v)).map
    (fun r => ⟨r.1.artifactPath, r.2.installationPath,
      r.2.purePythonPackage⟩)

/-- The write operations the repository performs on these tables. -/
inductive Op
  | save (pkg ver instPath artPath algo : String) (hval : Nat)
  | del (n v : String)
deriving DecidableEq, Repr

def applyOp (σ : Registry) : Op → Registry
  | .save pkg ver instPath artPath algo hval =>
    savePackageInfo σ pkg ver instPath artPath algo hval
  | .del n v => delEntry σ n v

/-- A registry state reached from a fresh schema by a sequence of writes. -/
def runOps (ops : List Op) : Registry := ops.foldl applyOp emptyRegistry

/-- Structural invariant: artifact ids stay below the artifact sequence,
and the two AUTOINCREMENT sequences coincide (rows are only ever inserted
in dist+artifact pairs). -/
def Inv (σ : Registry) : Prop :=
  (∀ a ∈ σ.arts, a.id < σ.nextArtId) ∧ σ.nextDistId = σ.nextArtId

/-- Whether an operation inserts under the given (name, version). -/
def isSaveFor (n v : String) : Op → Bool
  | .save pkg ver _ _ _ _ => pkg == n && ver == v
  | .del _ _ => false

theorem inv_preserved (σ : Registry) (op : Op) (h : Inv σ) :
    Inv (applyOp σ op) := by
  obtain ⟨hart, hnext⟩ := h
  cases op with
  | save pkg ver instPath artPath algo hval =>
    by_cases hg : σ.dists.any (distMatches pkg ver) = true
    · simp only [applyOp, savePackageInfo, if_pos hg]
      exact ⟨hart, hnext⟩
    · simp only [applyOp, savePackageInfo, if_neg hg]
      constructor
      · intro a ha
        show a.id < σ.nextArtId + 1
        rcases List.mem_append.mp ha with h1 | h1
        · have := hart a h1
          omega
        · rcases List.mem_singleton.mp h1 with rfl
          simp
      · simp [hnext]
  | del n v =>
    exact ⟨fun a ha => hart a (List.mem_of_mem_filter ha), hnext⟩

theorem inv_runOps (ops : List Op) : Inv (runOps ops) := by
  have base : Inv emptyRegistry :=
    ⟨fun a ha => absurd ha (List.not_mem_nil a), rfl⟩
  suffices h : ∀ (l : List Op) (σ : Registry), Inv σ →
      Inv (List.foldl applyOp σ l) from h ops _ base
  intro l
  induction l with
  | nil => intro σ h; exact h
  | cons op rest ih => intro σ h; exact ih _ (inv_preserved σ op h)

theorem noDist_preserved (n v : String) (σ : Registry) (op : Op)
    (hop : isSaveFor n v op = false)
    (h : ∀ d ∈ σ.dists, distMatches n v d = false) :
    ∀ d ∈ (applyOp σ op).dists, distMatches n v d = false := by
  cases op with
  | save pkg ver instPath artPath algo hval =>
    intro d hd
    by_cases hg : σ.dists.any (distMatches pkg ver) = true
    · simp only [applyOp, savePackageInfo, if_pos hg] at hd
      exact h d hd
    · simp only [applyOp, savePackageInfo, if_neg hg] at hd
      rcases List.mem_append.mp hd with h1 | h1
      · exact h d h1
      · rcases List.mem_singleton.mp h1 with rfl
        simpa [distMatches, isSaveFor] using hop
  | del n2 v2 =>
    intro d hd
    exact h d (List.mem_of_mem_filter hd)

theorem noDist_runOps (n v : String) (ops : List Op)
    (hops : ∀ op ∈ ops, isSaveFor n v op = false) :
    ∀ d ∈ (runOps ops).dists, distMatches n v d = false := by
  have base : ∀ d ∈ emptyRegistry.dists, distMatches n v d = false := by
    intro d hd; cases hd
  suffices h : ∀ (l : List Op) (σ : Registry),
      (∀ op ∈ l, isSaveFor n v op = false) →
      (∀ d ∈ σ.dists, distMatches n v d = false) →
      ∀ d ∈ (List.foldl applyOp σ l).dists, distMatches n v d = false from
    h ops _ hops base
  intro l
  induction l with
  | nil => intro σ _ h; exact h
  | cons op rest ih =>
    intro σ hl h
    exact ih _ (fun o ho => hl o (List.mem_cons_of_mem op ho))
      (noDist_preserved n v σ op (hl op (List.mem_cons_self op rest)) h)

theorem lookup_none_of_noDist (σ : Registry) (n v : String)
    (h : ∀ d ∈ σ.dists, distMatches n v d = false) :
    checkDbForInstallation σ n v = none := by
  unfold checkDbForInstallation lookupRows
  have hf : σ.dists.filter (distMatches n v) = [] := by
    rw [List.filter_eq_nil_iff]
    intro d hd
    rw [h d hd]
    exact Bool.false_ne_true
  rw [hf]
  rfl

theorem checkDb_after_insert (σ : Registry) (hInv : Inv σ)
    (pkg ver instPath artPath algo : String) (hval : Nat)
    (hnew : σ.dists.any (distMatches pkg ver) = false) :
    checkDbForInstallation
        (savePackageInfo σ pkg ver instPath artPath algo hval) pkg ver
      = some ⟨artPath, instPath, false⟩ := by
  obtain ⟨hart, hnext⟩ := hInv
  have hnot : ¬ (σ.dists.any (distMatches pkg ver) = true) := by
    rw [hnew]; exact Bool.false_ne_true
  simp only [savePackageInfo, if_neg hnot]
  simp only [checkDbForInstallation, lookupRows]
  have hfd : (σ.dists ++ [(⟨σ.nextDistId, pkg, ver, instPath, false⟩ :
        DistRow)]).filter (distMatches pkg ver)
      = [⟨σ.nextDistId, pkg, ver, instPath, false⟩] := by
    rw [List.filter_append]
    have h1 : σ.dists.filter (distMatches pkg ver) = [] := by
      rw [List.filter_eq_nil_iff]
      intro d hd hc
      exact hnot (List.any_eq_true.mpr ⟨d, hd, hc⟩)
    rw [h1]
    simp [distMatches]
  rw [hfd]
  have hfa : (σ.arts ++ [(⟨σ.nextArtId, σ.nextDistId, artPath⟩ :
        ArtRow)]).filter (fun a => a.id == σ.nextDistId)
      = [⟨σ.nextArtId, σ.nextDistId, artPath⟩] := by
    rw [List.filter_append]
    have h2 : σ.arts.filter (fun a => a.id == σ.nextDistId) = [] := by
      rw [List.filter_eq_nil_iff]
      intro a ha
      have := hart a ha
      simp only [beq_iff_eq]
      omega
    rw [h2]
    simp [hnext]
  simp only [List.cons_bind, List.nil_bind, List.append_nil]
  rw [hfa]
  rfl

end Reg

namespace Reg

/-- The rows of the SELECT in `Use.cleanup` (this query joins correctly on
`distributions.id = distribution_id`): (name, version, artifact_path,
installation_path) per distribution/artifact pair. -/
def cleanupRows (σ : Registry) : List (String × String × String × String) :=
  σ.dists.bind (fun d =>
    (σ.arts.filter (fun a => a.distributionId == d.id)).map
      (fun a => (d.name, d.version, a.artifactPath, d.installationPath)))

/-- `Use.cleanup` (src/use/main.py lines 354-373).  The cursor's
`row_factory` makes every fetched row a dict keyed by column name, and the
loop header `for name, version, artifact_path, installation_path in ...`
tuple-unpacks each dict, which iterates over its KEYS: the four variables
are bound to the literal strings "name", "version", "artifact_path" and
"installation_path" on every row, not to the row's values. -/
def cleanup (fsExists : String → Bool) (σ : Registry) : Registry :=
  (cleanupRows σ).foldl
    (fun acc _row =>
      if !(fsExists "artifact_path" && fsExists "installation_path") then
        delEntry acc "name" "version"
      else acc)
    σ

end Reg

/-- C6: registry round-trip.  Starting from a fresh schema and any sequence
of save/delete operations: committing an entry for a new (name, version)
pair and looking that pair up returns exactly the committed artifact path,
installation path and purity flag; committing when the pair already exists
is a no-op, so lookup keeps returning the previously inserted row — the
most recently inserted matching entry either way; and looking up a pair for
which no save was ever executed returns none. -/
theorem registry_round_trip :
    (∀ (ops : List Reg.Op) (pkg ver instPath artPath algo : String)
        (hval : Nat),
      (Reg.runOps ops).dists.any (Reg.distMatches pkg ver) = false →
      Reg.checkDbForInstallation
          (Reg.savePackageInfo (Reg.runOps ops) pkg ver instPath artPath
            algo hval) pkg ver
        = some ⟨artPath, instPath, false⟩) ∧
    (∀ (ops : List Reg.Op) (pkg ver instPath artPath algo : String)
        (hval : Nat),
      (Reg.runOps ops).dists.any (Reg.distMatches pkg ver) = true →
      Reg.savePackageInfo (Reg.runOps ops) pkg ver instPath artPath algo
          hval
        = Reg.runOps ops) ∧
    (∀ (ops : List Reg.Op) (n v : String),
      (∀ op ∈ ops, Reg.isSaveFor n v op = false) →
      Reg.checkDbForInstallation (Reg.runOps ops) n v = none) := by
  refine ⟨?_, ?_, ?_⟩
  · intro ops pkg ver instPath artPath algo hval hnew
    exact Reg.checkDb_after_insert (Reg.runOps ops) (Reg.inv_runOps ops)
      pkg ver instPath artPath algo hval hnew
  · intro ops pkg ver instPath artPath algo hval hexists
    simp only [Reg.savePackageInfo, if_pos hexists]
  · intro ops n v hops
    exact Reg.lookup_none_of_noDist (Reg.runOps ops) n v
      (Reg.noDist_runOps n v ops hops)

theorem registry_round_trip_witness :
    Reg.checkDbForInstallation
        (Reg.savePackageInfo Reg.emptyRegistry "pkgx" "1.0"
          "/venv/pkgx/1.0" "/packages/pkgx.whl" "sha256" 7) "pkgx" "1.0"
      = some ⟨"/packages/pkgx.whl", "/venv/pkgx/1.0", false⟩ ∧
    Reg.checkDbForInstallation Reg.emptyRegistry "absent" "0.1" = none := by
  constructor
  · have h := registry_round_trip.1 [] "pkgx" "1.0" "/venv/pkgx/1.0"
      "/packages/pkgx.whl" "sha256" 7 (by decide)
    exact h
  · exact registry_round_trip.2.2 [] "absent" "0.1" (by intro op ho; cases ho)

/-- C7: the claim is right and the code is wrong.  `Use.cleanup`'s loop
unpacks dict rows into its four variables, binding the literal column names,
so the existence check tests the paths "artifact_path"/"installation_path"
and the deletion targets (name="name", version="version"): a registry entry
whose recorded paths do not exist on disk is NOT removed.  Here the
filesystem has no paths at all, yet the entry for ("pkgx", "1.0") survives
reconciliation and is still returned by lookup. -/
theorem cleanup_retains_stale_entry :
    Reg.cleanup (fun _ => false)
        (Reg.savePackageInfo Reg.emptyRegistry "pkgx" "1.0"
          "/venv/pkgx/1.0" "/packages/pkgx.whl" "sha256" 7)
      = Reg.savePackageInfo Reg.emptyRegistry "pkgx" "1.0"
          "/venv/pkgx/1.0" "/packages/pkgx.whl" "sha256" 7 ∧
    Reg.checkDbForInstallation
        (Reg.cleanup (fun _ => false)
          (Reg.savePackageInfo Reg.emptyRegistry "pkgx" "1.0"
            "/venv/pkgx/1.0" "/packages/pkgx.whl" "sha256" 7))
        "pkgx" "1.0"
      = some ⟨"/packages/pkgx.whl", "/venv/pkgx/1.0", false⟩ := by
  refine ⟨by decide, by decide⟩

namespace AutoInstall

/-- Value of a hex digit, as `int(s, 16)` would interpret it. -/
def hexDigit (c : Char) : Nat :=
  if '0' ≤ c ∧ c ≤ '9' then c.toNat - '0'.toNat
  else if 'a' ≤ c ∧ c ≤ 'f' then c.toNat - 'a'.toNat + 10
  else if 'A' ≤ c ∧ c ≤ 'F' then c.toNat - 'A'.toNat + 10
  else 0

/-- Python `int(s, 16)` on a valid hexadecimal string: the digest strings
from the index are compared as exact integers, not as strings. -/
def hexVal (s : String) : Nat :=
  s.toList.foldl (fun acc c => acc * 16 + hexDigit c) 0

/-- One release offered by the index for the requested version: its
download URL and its published digest (`R.digests[hash_algo.name]`). -/
structure Release where
  url : String
  digest : String
deriving DecidableEq, Repr

/-- The `RegistryEntry` produced by `_install`. -/
structure REntry where
  artifactPath : String
  installationPath : String
deriving DecidableEq, Repr

/-- Oracle for the effectful steps of one candidate hash `H`: whether
`_download_artifact` returns (false = it raised the tamper `ImportError`),
what `_install` returns (`none` = it raised), and whether
`_load_venv_entry` succeeds. -/
structure Attempt where
  downloadOk : Bool
  installEntry : Option REntry
  importOk : Bool

/-- Environment of one `_auto_install` call. -/
structure Env where
  dbEntry : Bool
  releases : Option (List Release)
  attempt : Nat → Attempt
  fileDigest : String → Nat

/-- The externally visible effects of the loop, in order. -/
inductive Ev
  | download (url : String) (h : Nat)
  | installTry (h : Nat)
  | importTry (h : Nat)
  | rmdir (p : String)
  | commit (artifactPath installationPath : String) (hval : Nat)
deriving DecidableEq, Repr

/-- What `_auto_install` returns (module or exception family), or how it
aborts. -/
inductive AIResult
  | priorResult
  | funcResult
  | cachedImport
  | releasesError
  | downloadRaised
  | rmtreeRaised
  | unexpectedHash
  | importError
  | loadedModule
deriving DecidableEq, Repr

/-- The `rmtree(entry.installation_path)` of the `except` block when
`entry` is the entry of the candidate that just failed at import: that
directory was created by this candidate's successful `_install`, so the
deletion succeeds (and is skipped when cleanup is disabled). -/
def freshCleanup (e : REntry) (cleanup : Bool) : List Ev :=
  if cleanup then [Ev.rmdir e.installationPath] else []

/-- The `for H in user_provided_hashes` loop of `_auto_install`
(src/use/pimp.py lines 492-549).  `prevEntry` is the mutable `entry`
variable as left by earlier iterations.  When the `_install` call itself
raises, the `except` block runs `rmtree(entry.installation_path)` if
`entry` is truthy and cleanup is enabled — but a truthy `entry` at that
point is the stale entry of an earlier candidate that failed at import,
whose directory the same block already deleted (and asserted gone), so the
`rmtree` raises a FileNotFoundError that nothing catches and the whole
call aborts.  With `entry` still `None` or cleanup disabled, the loop
continues with the next candidate.  Exhausting the list returns
`ImportError(msg)`. -/
def loop (env : Env) (rels : List Release) (cleanup : Bool) :
    List Nat → Option REntry → AIResult × List Ev
  | [], _ => (.importError, [])
  | H :: rest, prevEntry =>
    match rels.find? (fun R => H == hexVal R.digest) with
    | none => (.unexpectedHash, [])
    | some R =>
      if (env.attempt H).downloadOk = false then
        (.downloadRaised, [.download R.url H])
      else
        match (env.attempt H).installEntry with
        | none =>
          match prevEntry, cleanup with
          | some _, true =>
            (.rmtreeRaised, [.download R.url H, .installTry H])
          | _, _ =>
            ((loop env rels cleanup rest prevEntry).1,
              .download R.url H :: .installTry H ::
                (loop env rels cleanup rest prevEntry).2)
        | some e =>
          if (env.attempt H).importOk then
            (.loadedModule,
              [.download R.url H, .installTry H, .importTry H,
               .commit e.artifactPath e.installationPath
                 (env.fileDigest e.artifactPath)])
          else
            ((loop env rels cleanup rest (some e)).1,
              .download R.url H :: .installTry H :: .importTry H ::
                freshCleanup e cleanup ++
                  (loop env rels cleanup rest (some e)).2)

/-- `_auto_install` (src/use/pimp.py lines 432-549): the piped-in module or
exception and the `func` shortcut return immediately; a registry hit takes
the cached-import path (no download, no commit); a failed release query
returns that exception; otherwise the candidate loop runs with `entry`
initially `None`. -/
def autoInstall (env : Env) (cleanup priorMod funcGiven : Bool)
    (hashes : List Nat) : AIResult × List Ev :=
  if priorMod then (.priorResult, [])
  else if funcGiven then (.funcResult, [])
  else if env.dbEntry then (.cachedImport, [])
  else
    match env.releases with
    | none => (.releasesError, [])
    | some rels => loop env rels cleanup hashes none

/-- A candidate hash that is examined, downloads fine, but whose
install-or-import fails, sending the loop onward. -/
def failsAttempt (env : Env) (H : Nat) : Prop :=
  (env.attempt H).downloadOk = true ∧
  ((env.attempt H).installEntry = none ∨ (env.attempt H).importOk = false)

/-- A hash that equals some release's digest, as an integer. -/
def matchesSome (rels : List Release) (H : Nat) : Prop :=
  ∃ R ∈ rels, hexVal R.digest = H

/-- The except-block survives a run of failing candidates: whenever a
candidate's install step fails, the `entry` variable must still be `None`
or cleanup must be disabled — otherwise the `rmtree` of the stale entry's
already-deleted directory raises FileNotFoundError and aborts the call.  A
candidate that fails at import leaves its own (now stale) entry in
`entry`. -/
def survivesPrefix (env : Env) (cleanup : Bool) :
    List Nat → Option REntry → Prop
  | [], _ => True
  | H :: rest, prev =>
    match (env.attempt H).installEntry with
    | none =>
      (prev = none ∨ cleanup = false) ∧ survivesPrefix env cleanup rest prev
    | some e => survivesPrefix env cleanup rest (some e)

theorem mem_freshCleanup {ev : Ev} {e : REntry} {c : Bool}
    (h : ev ∈ freshCleanup e c) : ev = .rmdir e.installationPath := by
  cases c with
  | false => simp [freshCleanup] at h
  | true => simpa [freshCleanup] using h

theorem find?_digest_facts {rels : List Release} {H : Nat} {R : Release}
    (h : rels.find? (fun R => H == hexVal R.digest) = some R) :
    R ∈ rels ∧ hexVal R.digest = H := by
  refine ⟨List.mem_of_find?_eq_some h, ?_⟩
  have := List.find?_some h
  simp only [beq_iff_eq] at this
  exact this.symm

theorem loop_cons_nomatch (env : Env) (rels : List Release) (cleanup : Bool)
    (H : Nat) (rest : List Nat) (prev : Option REntry)
    (hfind : rels.find? (fun R => H == hexVal R.digest) = none) :
    loop env rels cleanup (H :: rest) prev = (.unexpectedHash, []) := by
  simp [loop, hfind]

theorem loop_cons_dlfail (env : Env) (rels : List Release) (cleanup : Bool)
    (H : Nat) (rest : List Nat) (prev : Option REntry) (R : Release)
    (hfind : rels.find? (fun R => H == hexVal R.digest) = some R)
    (hdl : (env.attempt H).downloadOk = false) :
    loop env rels cleanup (H :: rest) prev
      = (.downloadRaised, [.download R.url H]) := by
  simp [loop, hfind, hdl]

theorem loop_cons_installfail_stale (env : Env) (rels : List Release)
    (H : Nat) (rest : List Nat) (e2 : REntry) (R : Release)
    (hfind : rels.find? (fun R => H == hexVal R.digest) = some R)
    (hdl : (env.attempt H).downloadOk = true)
    (hinst : (env.attempt H).installEntry = none) :
    loop env rels true (H :: rest) (some e2)
      = (.rmtreeRaised, [.download R.url H, .installTry H]) := by
  simp [loop, hfind, hdl, hinst]

theorem loop_cons_installfail_cont (env : Env) (rels : List Release)
    (cleanup : Bool) (H : Nat) (rest : List Nat) (prev : Option REntry)
    (R : Release)
    (hfind : rels.find? (fun R => H == hexVal R.digest) = some R)
    (hdl : (env.attempt H).downloadOk = true)
    (hinst : (env.attempt H).installEntry = none)
    (hok : prev = none ∨ cleanup = false) :
    loop env rels cleanup (H :: rest) prev
      = ((loop env rels cleanup rest prev).1,
        .download R.url H :: .installTry H ::
          (loop env rels cleanup rest prev).2) := by
  rcases hok with rfl | rfl
  · cases cleanup <;> simp [loop, hfind, hdl, hinst]
  · cases prev <;> simp [loop, hfind, hdl, hinst]

theorem loop_cons_success (env : Env) (rels : List Release) (cleanup : Bool)
    (H : Nat) (rest : List Nat) (prev : Option REntry) (R : Release)
    (e : REntry)
    (hfind : rels.find? (fun R => H == hexVal R.digest) = some R)
    (hdl : (env.attempt H).downloadOk = true)
    (hinst : (env.attempt H).installEntry = some e)
    (himp : (env.attempt H).importOk = true) :
    loop env rels cleanup (H :: rest) prev
      = (.loadedModule,
        [.download R.url H, .installTry H, .importTry H,
         .commit e.artifactPath e.installationPath
           (env.fileDigest e.artifactPath)]) := by
  simp [loop, hfind, hdl, hinst, himp]

theorem loop_cons_importfail (env : Env) (rels : List Release)
    (cleanup : Bool) (H : Nat) (rest : List Nat) (prev : Option REntry)
    (R : Release) (e : REntry)
    (hfind : rels.find? (fun R => H == hexVal R.digest) = some R)
    (hdl : (env.attempt H).downloadOk = true)
    (hinst : (env.attempt H).installEntry = some e)
    (himp : (env.attempt H).importOk = false) :
    loop env rels cleanup (H :: rest) prev
      = ((loop env rels cleanup rest (some e)).1,
        .download R.url H :: .installTry H :: .importTry H ::
          freshCleanup e cleanup ++
            (loop env rels cleanup rest (some e)).2) := by
  simp [loop, hfind, hdl, hinst, himp]

theorem download_gated (env : Env) (rels : List Release) (cleanup : Bool) :
    ∀ (hashes : List Nat) (prev : Option REntry) (u : String) (H : Nat),
      Ev.download u H ∈ (loop env rels cleanup hashes prev).2 →
      H ∈ hashes ∧ ∃ R ∈ rels, R.url = u ∧ hexVal R.digest = H := by
  intro hashes
  induction hashes with
  | nil => intro prev u H h; simp [loop] at h
  | cons H0 rest ih =>
    intro prev u H h
    cases hfind : rels.find? (fun R => H0 == hexVal R.digest) with
    | none =>
      rw [loop_cons_nomatch env rels cleanup H0 rest prev hfind] at h
      simp at h
    | some R =>
      obtain ⟨hRmem, hRdig⟩ := find?_digest_facts hfind
      cases hdl : (env.attempt H0).downloadOk with
      | false =>
        rw [loop_cons_dlfail env rels cleanup H0 rest prev R hfind hdl] at h
        simp at h
        obtain ⟨rfl, rfl⟩ := h
        exact ⟨List.mem_cons_self _ _, R, hRmem, rfl, hRdig⟩
      | true =>
        cases hinst : (env.attempt H0).installEntry with
        | none =>
          by_cases hstale : (∃ e2, prev = some e2) ∧ cleanup = true
          · obtain ⟨⟨e2, rfl⟩, rfl⟩ := hstale
            rw [loop_cons_installfail_stale env rels H0 rest e2 R hfind
              hdl hinst] at h
            simp at h
            obtain ⟨rfl, rfl⟩ := h
            exact ⟨List.mem_cons_self _ _, R, hRmem, rfl, hRdig⟩
          · have hok : prev = none ∨ cleanup = false := by
              cases hp : prev with
              | none => exact Or.inl rfl
              | some e2 =>
                cases hc : cleanup with
                | false => exact Or.inr rfl
                | true => exact absurd ⟨⟨e2, hp⟩, hc⟩ hstale
            rw [loop_cons_installfail_cont env rels cleanup H0 rest prev R
              hfind hdl hinst hok] at h
            simp at h
            rcases h with ⟨rfl, rfl⟩ | h
            · exact ⟨List.mem_cons_self _ _, R, hRmem, rfl, hRdig⟩
            · obtain ⟨h1, h2⟩ := ih prev u H h
              exact ⟨List.mem_cons_of_mem _ h1, h2⟩
        | some e =>
          cases himp : (env.attempt H0).importOk with
          | true =>
            rw [loop_cons_success env rels cleanup H0 rest prev R e hfind
              hdl hinst himp] at h
            simp at h
            obtain ⟨rfl, rfl⟩ := h
            exact ⟨List.mem_cons_self _ _, R, hRmem, rfl, hRdig⟩
          | false =>
            rw [loop_cons_importfail env rels cleanup H0 rest prev R e
              hfind hdl hinst himp] at h
            simp at h
            rcases h with ⟨rfl, rfl⟩ | h | h
            · exact ⟨List.mem_cons_self _ _, R, hRmem, rfl, hRdig⟩
            · have he := mem_freshCleanup h
              cases he
            · obtain ⟨h1, h2⟩ := ih (some e) u H h
              exact ⟨List.mem_cons_of_mem _ h1, h2⟩

theorem commit_only_success (env : Env) (rels : List Release)
    (cleanup : Bool) :
    ∀ (hashes : List Nat) (prev : Option REntry) (a i : String) (hv : Nat),
      Ev.commit a i hv ∈ (loop env rels cleanup hashes prev).2 →
      (loop env rels cleanup hashes prev).1 = .loadedModule := by
  intro hashes
  induction hashes with
  | nil => intro prev a i hv h; simp [loop] at h
  | cons H0 rest ih =>
    intro prev a i hv h
    cases hfind : rels.find? (fun R => H0 == hexVal R.digest) with
    | none =>
      rw [loop_cons_nomatch env rels cleanup H0 rest prev hfind] at h
      simp at h
    | some R =>
      cases hdl : (env.attempt H0).downloadOk with
      | false =>
        rw [loop_cons_dlfail env rels cleanup H0 rest prev R hfind hdl] at h
        simp at h
      | true =>
        cases hinst : (env.attempt H0).installEntry with
        | none =>
          by_cases hstale : (∃ e2, prev = some e2) ∧ cleanup = true
          · obtain ⟨⟨e2, rfl⟩, rfl⟩ := hstale
            rw [loop_cons_installfail_stale env rels H0 rest e2 R hfind
              hdl hinst] at h
            simp at h
          · have hok : prev = none ∨ cleanup = false := by
              cases hp : prev with
              | none => exact Or.inl rfl
              | some e2 =>
                cases hc : cleanup with
                | false => exact Or.inr rfl
                | true => exact absurd ⟨⟨e2, hp⟩, hc⟩ hstale
            rw [loop_cons_installfail_cont env rels cleanup H0 rest prev R
              hfind hdl hinst hok] at h ⊢
            simp only [List.mem_cons] at h
            rcases h with h | h | h
            · cases h
            · cases h
            · exact ih prev a i hv h
        | some e =>
          cases himp : (env.attempt H0).importOk with
          | true =>
            rw [loop_cons_success env rels cleanup H0 rest prev R e hfind
              hdl hinst himp]
          | false =>
            rw [loop_cons_importfail env rels cleanup H0 rest prev R e
              hfind hdl hinst himp] at h ⊢
            simp only [List.mem_append, List.mem_cons] at h
            rcases h with (h | h | h | h) | h
            · cases h
            · cases h
            · cases h
            · have he := mem_freshCleanup h
              cases he
            · exact ih (some e) a i hv h

theorem success_shape (env : Env) (rels : List Release) (cleanup : Bool) :
    ∀ (hashes : List Nat) (prev : Option REntry),
      (loop env rels cleanup hashes prev).1 = .loadedModule →
      ∃ (evs0 : List Ev) (H : Nat) (R : Release) (e : REntry),
        H ∈ hashes ∧ R ∈ rels ∧ hexVal R.digest = H ∧
        (env.attempt H).downloadOk = true ∧
        (env.attempt H).installEntry = some e ∧
        (env.attempt H).importOk = true ∧
        (loop env rels cleanup hashes prev).2 =
          evs0 ++ [.download R.url H, .installTry H, .importTry H,
            .commit e.artifactPath e.installationPath
              (env.fileDigest e.artifactPath)] ∧
        (∀ a i hv, Ev.commit a i hv ∉ evs0) := by
  intro hashes
  induction hashes with
  | nil => intro prev h; simp [loop] at h
  | cons H0 rest ih =>
    intro prev h
    cases hfind : rels.find? (fun R => H0 == hexVal R.digest) with
    | none =>
      rw [loop_cons_nomatch env rels cleanup H0 rest prev hfind] at h
      cases h
    | some R =>
      obtain ⟨hRmem, hRdig⟩ := find?_digest_facts hfind
      cases hdl : (env.attempt H0).downloadOk with
      | false =>
        rw [loop_cons_dlfail env rels cleanup H0 rest prev R hfind hdl] at h
        cases h
      | true =>
        cases hinst : (env.attempt H0).installEntry with
        | none =>
          by_cases hstale : (∃ e2, prev = some e2) ∧ cleanup = true
          · obtain ⟨⟨e2, rfl⟩, rfl⟩ := hstale
            rw [loop_cons_installfail_stale env rels H0 rest e2 R hfind
              hdl hinst] at h
            cases h
          · have hok : prev = none ∨ cleanup = false := by
              cases hp : prev with
              | none => exact Or.inl rfl
              | some e2 =>
                cases hc : cleanup with
                | false => exact Or.inr rfl
                | true => exact absurd ⟨⟨e2, hp⟩, hc⟩ hstale
            rw [loop_cons_installfail_cont env rels cleanup H0 rest prev R
              hfind hdl hinst hok] at h
            obtain ⟨evs0, H, R2, e2, hmem, hR2, hdig2, hdl2, hinst2,
              himp2, htrace, hnc⟩ := ih prev h
            refine ⟨.download R.url H0 :: .installTry H0 :: evs0, H, R2,
              e2, List.mem_cons_of_mem _ hmem, hR2, hdig2, hdl2, hinst2,
              himp2, ?_, ?_⟩
            · rw [loop_cons_installfail_cont env rels cleanup H0 rest prev
                R hfind hdl hinst hok]
              simp [htrace]
            · intro a i hv hmem2
              simp only [List.mem_cons] at hmem2
              rcases hmem2 with hc | hc | hc
              · cases hc
              · cases hc
              · exact hnc a i hv hc
        | some e =>
          cases himp : (env.attempt H0).importOk with
          | true =>
            refine ⟨[], H0, R, e, List.mem_cons_self _ _, hRmem, hRdig,
              hdl, hinst, himp, ?_, ?_⟩
            · rw [loop_cons_success env rels cleanup H0 rest prev R e hfind
                hdl hinst himp]
              simp
            · intro a i hv hmem2
              cases hmem2
          | false =>
            rw [loop_cons_importfail env rels cleanup H0 rest prev R e
              hfind hdl hinst himp] at h
            obtain ⟨evs0, H, R2, e2, hmem, hR2, hdig2, hdl2, hinst2,
              himp2, htrace, hnc⟩ := ih (some e) h
            refine ⟨.download R.url H0 :: .installTry H0 :: .importTry H0
              :: freshCleanup e cleanup ++ evs0, H, R2, e2,
              List.mem_cons_of_mem _ hmem, hR2, hdig2, hdl2, hinst2,
              himp2, ?_, ?_⟩
            · rw [loop_cons_importfail env rels cleanup H0 rest prev R e
                hfind hdl hinst himp]
              simp [htrace, List.append_assoc]
            · intro a i hv hmem2
              simp only [List.mem_append, List.mem_cons] at hmem2
              rcases hmem2 with (hc | hc | hc | hc) | hc
              · cases hc
              · cases hc
              · cases hc
              · have he := mem_freshCleanup hc
                cases he
              · exact hnc a i hv hc

theorem exhaust_all_fail (env : Env) (rels : List Release) (cleanup : Bool) :
    ∀ (hashes : List Nat) (prev : Option REntry),
      (∀ H ∈ hashes, matchesSome rels H ∧ failsAttempt env H) →
      survivesPrefix env cleanup hashes prev →
      (loop env rels cleanup hashes prev).1 = .importError := by
  intro hashes
  induction hashes with
  | nil => intro prev _ _; simp [loop]
  | cons H0 rest ih =>
    intro prev hall hsurv
    obtain ⟨⟨R0, hR0, hdig0⟩, hdl0, hfail0⟩ :=
      hall H0 (List.mem_cons_self _ _)
    have hrest : ∀ H ∈ rest, matchesSome rels H ∧ failsAttempt env H :=
      fun H hm => hall H (List.mem_cons_of_mem _ hm)
    cases hfind : rels.find? (fun R => H0 == hexVal R.digest) with
    | none =>
      exfalso
      have := List.find?_eq_none.mp hfind R0 hR0
      simp only [beq_iff_eq] at this
      exact this hdig0.symm
    | some R =>
      cases hinst : (env.attempt H0).installEntry with
      | none =>
        simp only [survivesPrefix, hinst] at hsurv
        rw [loop_cons_installfail_cont env rels cleanup H0 rest prev R
          hfind hdl0 hinst hsurv.1]
        exact ih prev hrest hsurv.2
      | some e =>
        have himp : (env.attempt H0).importOk = false := by
          rcases hfail0 with h | h
          · rw [hinst] at h; cases h
          · exact h
        simp only [survivesPrefix, hinst] at hsurv
        rw [loop_cons_importfail env rels cleanup H0 rest prev R e hfind
          hdl0 hinst himp]
        exact ih (some e) hrest hsurv

theorem bad_hash_unexpected (env : Env) (rels : List Release)
    (cleanup : Bool) (Hb : Nat)
    (hbad : ∀ R ∈ rels, hexVal R.digest ≠ Hb) :
    ∀ (pre rest : List Nat) (prev : Option REntry),
      (∀ Hp ∈ pre, matchesSome rels Hp ∧ failsAttempt env Hp) →
      survivesPrefix env cleanup pre prev →
      (loop env rels cleanup (pre ++ Hb :: rest) prev).1
        = .unexpectedHash ∧
      (∀ u, Ev.download u Hb ∉
        (loop env rels cleanup (pre ++ Hb :: rest) prev).2) ∧
      (∀ a i hv, Ev.commit a i hv ∉
        (loop env rels cleanup (pre ++ Hb :: rest) prev).2) := by
  intro pre
  induction pre with
  | nil =>
    intro rest prev _ _
    have hfind : rels.find? (fun R => Hb == hexVal R.digest) = none := by
      rw [List.find?_eq_none]
      intro R hR
      simp only [beq_iff_eq]
      exact fun he => hbad R hR he.symm
    rw [List.nil_append,
      loop_cons_nomatch env rels cleanup Hb rest prev hfind]
    refine ⟨rfl, ?_, ?_⟩
    · intro u hc; cases hc
    · intro a i hv hc; cases hc
  | cons Hp pre2 ih =>
    intro rest prev hall hsurv
    obtain ⟨⟨R0, hR0, hdig0⟩, hdl0, hfail0⟩ :=
      hall Hp (List.mem_cons_self _ _)
    have hrest : ∀ H ∈ pre2, matchesSome rels H ∧ failsAttempt env H :=
      fun H hm => hall H (List.mem_cons_of_mem _ hm)
    have hne : Hp ≠ Hb := by
      intro he
      exact hbad R0 hR0 (he ▸ hdig0)
    cases hfind : rels.find? (fun R => Hp == hexVal R.digest) with
    | none =>
      exfalso
      have := List.find?_eq_none.mp hfind R0 hR0
      simp only [beq_iff_eq] at this
      exact this hdig0.symm
    | some R =>
      cases hinst : (env.attempt Hp).installEntry with
      | none =>
        simp only [survivesPrefix, hinst] at hsurv
        rw [List.cons_append, loop_cons_installfail_cont env rels cleanup
          Hp (pre2 ++ Hb :: rest) prev R hfind hdl0 hinst hsurv.1]
        obtain ⟨ih1, ih2, ih3⟩ := ih rest prev hrest hsurv.2
        refine ⟨ih1, ?_, ?_⟩
        · intro u hc
          simp only [List.mem_cons] at hc
          rcases hc with hc | hc | hc
          · exact hne (Ev.download.inj hc).2.symm
          · cases hc
          · exact ih2 u hc
        · intro a i hv hc
          simp only [List.mem_cons] at hc
          rcases hc with hc | hc | hc
          · cases hc
          · cases hc
          · exact ih3 a i hv hc
      | some e =>
        have himp : (env.attempt Hp).importOk = false := by
          rcases hfail0 with h | h
          · rw [hinst] at h; cases h
          · exact h
        simp only [survivesPrefix, hinst] at hsurv
        rw [List.cons_append, loop_cons_importfail env rels cleanup Hp
          (pre2 ++ Hb :: rest) prev R e hfind hdl0 hinst himp]
        obtain ⟨ih1, ih2, ih3⟩ := ih rest (some e) hrest hsurv
        refine ⟨ih1, ?_, ?_⟩
        · intro u hc
          simp only [List.mem_append, List.mem_cons] at hc
          rcases hc with (hc | hc | hc | hc) | hc
          · exact hne (Ev.download.inj hc).2.symm
          · cases hc
          · cases hc
          · have he := mem_freshCleanup hc
            cases he
          · exact ih2 u hc
        · intro a i hv hc
          simp only [List.mem_append, List.mem_cons] at hc
          rcases hc with (hc | hc | hc | hc) | hc
          · cases hc
          · cases hc
          · cases hc
          · have he := mem_freshCleanup hc
            cases he
          · exact ih3 a i hv hc

/-- Concrete environment: one release whose digest (hex "2") is the integer
2; every attempt succeeds. -/
def cexEnvGood : Env :=
  ⟨false, some [⟨"https://files/x.whl", "2"⟩],
    fun _ => ⟨true, some ⟨"/packages/x.whl", "/venv/x/1.0"⟩, true⟩,
    fun _ => 2⟩

/-- Concrete environment: one release with digest 2; the download succeeds
but `_install` raises for every candidate. -/
def cexEnvInstallFail : Env :=
  ⟨false, some [⟨"u", "2"⟩], fun _ => ⟨true, none, true⟩, fun _ => 0⟩

/-- Concrete environment: one release with digest 2; install produces an
entry but the import step fails. -/
def cexEnvImportFail : Env :=
  ⟨false, some [⟨"u", "2"⟩],
    fun _ => ⟨true, some ⟨"/packages/x.whl", "/venv/x/1.0"⟩, false⟩,
    fun _ => 0⟩

end AutoInstall

/-- C3: a download is performed only for URLs whose published digest,
converted by `int(., 16)` to an exact integer, is one of the user-provided
hashes; and when the candidate iteration reaches a provided hash matching
no release's digest — every hash examined before it having matched a
release but failed at install or import, without tripping the stale-entry
rmtree (at each install failure the `entry` variable was still `None` or
cleanup was disabled) — the call fails with UnexpectedHash, with no
artifact downloaded for that hash and no RegistryEntry committed anywhere
in the call. -/
theorem auto_install_hash_gating :
    (∀ (env : AutoInstall.Env) (cleanup priorMod funcGiven : Bool)
        (hashes : List Nat) (u : String) (H : Nat),
      AutoInstall.Ev.download u H ∈
        (AutoInstall.autoInstall env cleanup priorMod funcGiven hashes).2 →
      H ∈ hashes ∧ ∃ rels, env.releases = some rels ∧
        ∃ R ∈ rels, R.url = u ∧ AutoInstall.hexVal R.digest = H) ∧
    (∀ (env : AutoInstall.Env) (cleanup : Bool)
        (rels : List AutoInstall.Release) (pre rest : List Nat) (Hb : Nat),
      env.dbEntry = false → env.releases = some rels →
      (∀ R ∈ rels, AutoInstall.hexVal R.digest ≠ Hb) →
      (∀ Hp ∈ pre, AutoInstall.matchesSome rels Hp ∧
        AutoInstall.failsAttempt env Hp) →
      AutoInstall.survivesPrefix env cleanup pre none →
      (AutoInstall.autoInstall env cleanup false false
        (pre ++ Hb :: rest)).1 = .unexpectedHash ∧
      (∀ u, AutoInstall.Ev.download u Hb ∉
        (AutoInstall.autoInstall env cleanup false false
          (pre ++ Hb :: rest)).2) ∧
      (∀ a i hv, AutoInstall.Ev.commit a i hv ∉
        (AutoInstall.autoInstall env cleanup false false
          (pre ++ Hb :: rest)).2)) := by
  constructor
  · intro env cleanup pm fg hashes u H h
    cases pm with
    | true => simp [AutoInstall.autoInstall] at h
    | false =>
      cases fg with
      | true => simp [AutoInstall.autoInstall] at h
      | false =>
        cases hdb : env.dbEntry with
        | true => simp [AutoInstall.autoInstall, hdb] at h
        | false =>
          cases hrel : env.releases with
          | none => simp [AutoInstall.autoInstall, hdb, hrel] at h
          | some rels =>
            have h2 : AutoInstall.Ev.download u H ∈
                (AutoInstall.loop env rels cleanup hashes none).2 := by
              simpa [AutoInstall.autoInstall, hdb, hrel] using h
            obtain ⟨h1, R, hR, hu, hd⟩ :=
              AutoInstall.download_gated env rels cleanup hashes none u H h2
            exact ⟨h1, rels, rfl, R, hR, hu, hd⟩
  · intro env cleanup rels pre rest Hb hdb hrel hbad hpre hsurv
    have he : AutoInstall.autoInstall env cleanup false false
        (pre ++ Hb :: rest)
        = AutoInstall.loop env rels cleanup (pre ++ Hb :: rest) none := by
      simp [AutoInstall.autoInstall, hdb, hrel]
    rw [he]
    exact AutoInstall.bad_hash_unexpected env rels cleanup Hb hbad pre rest
      none hpre hsurv

/-- C3 counterexample to the unamended claim: with one release of digest 2
and hashes [2, 3], the first candidate installs and imports, the call
returns the module, and the non-matching provided hash 3 never produces an
UnexpectedHash failure. -/
theorem auto_install_good_then_bad_counterexample :
    (AutoInstall.autoInstall AutoInstall.cexEnvGood true false false
      [2, 3]).1 = .loadedModule ∧
    (3 : Nat) ∈ [2, 3] ∧
    (∀ R ∈ [(⟨"https://files/x.whl", "2"⟩ : AutoInstall.Release)],
      AutoInstall.hexVal R.digest ≠ 3) :=
  ⟨rfl, by decide, by decide⟩

/-- C3 witness: both parts of the gating theorem at concrete inputs — the
download of hash 2 is justified by the matching release, and an immediate
non-matching hash 5 yields UnexpectedHash. -/
theorem auto_install_hash_gating_witness :
    ((2 : Nat) ∈ [2] ∧ ∃ rels, AutoInstall.cexEnvGood.releases = some rels ∧
      ∃ R ∈ rels, R.url = "https://files/x.whl" ∧
        AutoInstall.hexVal R.digest = 2) ∧
    (AutoInstall.autoInstall AutoInstall.cexEnvGood true false false
      (([] : List Nat) ++ 5 :: [])).1 = .unexpectedHash :=
  ⟨auto_install_hash_gating.1 AutoInstall.cexEnvGood true false false [2]
      "https://files/x.whl" 2 (by decide),
   (auto_install_hash_gating.2 AutoInstall.cexEnvGood true
      [⟨"https://files/x.whl", "2"⟩] [] [] 5 rfl rfl (by decide)
      (by intro Hp hm; exact absurd hm (List.not_mem_nil Hp))
      True.intro).1⟩

/-- C4: a RegistryEntry commit happens only on a fully successful
candidate and is the final action of the call (everything before it
commits nothing); an import failure with cleanup enabled deletes the fresh
entry's installation directory and continues with the next candidate; an
install failure while a stale entry from an earlier import-failed
candidate is held, with cleanup enabled, aborts the call with the uncaught
FileNotFoundError of the rerun rmtree; an install failure with no prior
entry deletes nothing and continues; and exhausting candidates that all
fail, provided no stale abort occurs, yields ImportError with no commit. -/
theorem auto_install_commit_discipline :
    (∀ (env : AutoInstall.Env) (cleanup pm fg : Bool) (hashes : List Nat)
        (a i : String) (hv : Nat),
      AutoInstall.Ev.commit a i hv ∈
        (AutoInstall.autoInstall env cleanup pm fg hashes).2 →
      (AutoInstall.autoInstall env cleanup pm fg hashes).1
        = .loadedModule) ∧
    (∀ (env : AutoInstall.Env) (cleanup pm fg : Bool) (hashes : List Nat),
      (AutoInstall.autoInstall env cleanup pm fg hashes).1
        = .loadedModule →
      ∃ rels, env.releases = some rels ∧
      ∃ (evs0 : List AutoInstall.Ev) (H : Nat) (R : AutoInstall.Release)
          (e : AutoInstall.REntry),
        H ∈ hashes ∧ R ∈ rels ∧ AutoInstall.hexVal R.digest = H ∧
        (env.attempt H).downloadOk = true ∧
        (env.attempt H).installEntry = some e ∧
        (env.attempt H).importOk = true ∧
        (AutoInstall.autoInstall env cleanup pm fg hashes).2 =
          evs0 ++ [.download R.url H, .installTry H, .importTry H,
            .commit e.artifactPath e.installationPath
              (env.fileDigest e.artifactPath)] ∧
        (∀ a i hv, AutoInstall.Ev.commit a i hv ∉ evs0)) ∧
    (∀ (env : AutoInstall.Env) (rels : List AutoInstall.Release)
        (H : Nat) (rest : List Nat) (prev : Option AutoInstall.REntry)
        (R : AutoInstall.Release) (e : AutoInstall.REntry),
      rels.find? (fun R => H == AutoInstall.hexVal R.digest) = some R →
      (env.attempt H).downloadOk = true →
      (env.attempt H).installEntry = some e →
      (env.attempt H).importOk = false →
      AutoInstall.loop env rels true (H :: rest) prev
        = ((AutoInstall.loop env rels true rest (some e)).1,
          .download R.url H :: .installTry H :: .importTry H ::
            .rmdir e.installationPath ::
              (AutoInstall.loop env rels true rest (some e)).2)) ∧
    (∀ (env : AutoInstall.Env) (rels : List AutoInstall.Release)
        (H : Nat) (rest : List Nat) (e2 : AutoInstall.REntry)
        (R : AutoInstall.Release),
      rels.find? (fun R => H == AutoInstall.hexVal R.digest) = some R →
      (env.attempt H).downloadOk = true →
      (env.attempt H).installEntry = none →
      AutoInstall.loop env rels true (H :: rest) (some e2)
        = (.rmtreeRaised, [.download R.url H, .installTry H])) ∧
    (∀ (env : AutoInstall.Env) (rels : List AutoInstall.Release)
        (cleanup : Bool) (H : Nat) (rest : List Nat)
        (R : AutoInstall.Release),
      rels.find? (fun R => H == AutoInstall.hexVal R.digest) = some R →
      (env.attempt H).downloadOk = true →
      (env.attempt H).installEntry = none →
      AutoInstall.loop env rels cleanup (H :: rest) none
        = ((AutoInstall.loop env rels cleanup rest none).1,
          .download R.url H :: .installTry H ::
            (AutoInstall.loop env rels cleanup rest none).2)) ∧
    (∀ (env : AutoInstall.Env) (cleanup : Bool)
        (rels : List AutoInstall.Release) (hashes : List Nat),
      env.dbEntry = false → env.releases = some rels →
      (∀ H ∈ hashes, AutoInstall.matchesSome rels H ∧
        AutoInstall.failsAttempt env H) →
      AutoInstall.survivesPrefix env cleanup hashes none →
      (AutoInstall.autoInstall env cleanup false false hashes).1
        = .importError ∧
      (∀ a i hv, AutoInstall.Ev.commit a i hv ∉
        (AutoInstall.autoInstall env cleanup false false hashes).2)) := by
  refine ⟨?_, ?_, ?_, ?_, ?_, ?_⟩
  · intro env cleanup pm fg hashes a i hv h
    cases pm with
    | true => simp [AutoInstall.autoInstall] at h
    | false =>
      cases fg with
      | true => simp [AutoInstall.autoInstall] at h
      | false =>
        cases hdb : env.dbEntry with
        | true => simp [AutoInstall.autoInstall, hdb] at h
        | false =>
          cases hrel : env.releases with
          | none => simp [AutoInstall.autoInstall, hdb, hrel] at h
          | some rels =>
            have he : AutoInstall.autoInstall env cleanup false false hashes
                = AutoInstall.loop env rels cleanup hashes none := by
              simp [AutoInstall.autoInstall, hdb, hrel]
            rw [he] at h ⊢
            exact AutoInstall.commit_only_success env rels cleanup hashes
              none a i hv h
  · intro env cleanup pm fg hashes h
    cases pm with
    | true => simp [AutoInstall.autoInstall] at h
    | false =>
      cases fg with
      | true => simp [AutoInstall.autoInstall] at h
      | false =>
        cases hdb : env.dbEntry with
        | true => simp [AutoInstall.autoInstall, hdb] at h
        | false =>
          cases hrel : env.releases with
          | none => simp [AutoInstall.autoInstall, hdb, hrel] at h
          | some rels =>
            have he : AutoInstall.autoInstall env cleanup false false hashes
                = AutoInstall.loop env rels cleanup hashes none := by
              simp [AutoInstall.autoInstall, hdb, hrel]
            rw [he] at h ⊢
            obtain ⟨evs0, H, R, e, hmem, hR, hdig, hdl, hinst, himp,
              htrace, hnc⟩ :=
              AutoInstall.success_shape env rels cleanup hashes none h
            exact ⟨rels, rfl, evs0, H, R, e, hmem, hR, hdig, hdl, hinst,
              himp, htrace, hnc⟩
  · intro env rels H rest prev R e hfind hdl hinst himp
    rw [AutoInstall.loop_cons_importfail env rels true H rest prev R e
      hfind hdl hinst himp]
    simp [AutoInstall.freshCleanup]
  · intro env rels H rest e2 R hfind hdl hinst
    exact AutoInstall.loop_cons_installfail_stale env rels H rest e2 R
      hfind hdl hinst
  · intro env rels cleanup H rest R hfind hdl hinst
    exact AutoInstall.loop_cons_installfail_cont env rels cleanup H rest
      none R hfind hdl hinst (Or.inl rfl)
  · intro env cleanup rels hashes hdb hrel hall hsurv
    have he : AutoInstall.autoInstall env cleanup false false hashes
        = AutoInstall.loop env rels cleanup hashes none := by
      simp [AutoInstall.autoInstall, hdb, hrel]
    rw [he]
    have h1 := AutoInstall.exhaust_all_fail env rels cleanup hashes none
      hall hsurv
    refine ⟨h1, ?_⟩
    intro a i hv hc
    have h2 := AutoInstall.commit_only_success env rels cleanup hashes none
      a i hv hc
    rw [h1] at h2
    cases h2

/-- C4 counterexample to the unamended claim: when _install raises for the
first candidate (the entry variable still holds None), nothing at all is
deleted — the trace holds the download and the install attempt, no rmdir —
and the loop moves on, here to exhaustion. -/
theorem auto_install_installfail_no_rmdir_counterexample :
    AutoInstall.autoInstall AutoInstall.cexEnvInstallFail true false false
      [2] = (.importError, [.download "u" 2, .installTry 2]) ∧
    (∀ p, AutoInstall.Ev.rmdir p ∉
      (AutoInstall.autoInstall AutoInstall.cexEnvInstallFail true false
        false [2]).2) := by
  refine ⟨rfl, ?_⟩
  intro p hp
  have h2 : (AutoInstall.autoInstall AutoInstall.cexEnvInstallFail true
      false false [2]).2 = [.download "u" 2, .installTry 2] := rfl
  rw [h2] at hp
  simp at hp

/-- C4 witness: the commit-discipline theorem at concrete inputs — a
commit in the trace forces the loaded-module result; an import failure
with cleanup removes the fresh directory and recurses; an install failure
over a stale entry aborts with rmtreeRaised; an install failure with no
prior entry just continues; and all-failing candidates end in ImportError. -/
theorem auto_install_commit_discipline_witness :
    (AutoInstall.autoInstall AutoInstall.cexEnvGood true false false
      [2]).1 = .loadedModule ∧
    AutoInstall.loop AutoInstall.cexEnvImportFail [⟨"u", "2"⟩] true [2]
        none
      = ((AutoInstall.loop AutoInstall.cexEnvImportFail [⟨"u", "2"⟩] true
          [] (some ⟨"/packages/x.whl", "/venv/x/1.0"⟩)).1,
        .download "u" 2 :: .installTry 2 :: .importTry 2 ::
          .rmdir "/venv/x/1.0" ::
            (AutoInstall.loop AutoInstall.cexEnvImportFail [⟨"u", "2"⟩]
              true [] (some ⟨"/packages/x.whl", "/venv/x/1.0"⟩)).2) ∧
    AutoInstall.loop AutoInstall.cexEnvInstallFail [⟨"u", "2"⟩] true [2]
        (some ⟨"/packages/x.whl", "/venv/x/1.0"⟩)
      = (.rmtreeRaised, [.download "u" 2, .installTry 2]) ∧
    AutoInstall.loop AutoInstall.cexEnvInstallFail [⟨"u", "2"⟩] true [2]
        none
      = ((AutoInstall.loop AutoInstall.cexEnvInstallFail [⟨"u", "2"⟩] true
          [] none).1,
        .download "u" 2 :: .installTry 2 ::
          (AutoInstall.loop AutoInstall.cexEnvInstallFail [⟨"u", "2"⟩]
            true [] none).2) ∧
    (AutoInstall.autoInstall AutoInstall.cexEnvImportFail true false false
      [2]).1 = .importError := by
  refine ⟨?_, ?_, ?_, ?_, ?_⟩
  · exact auto_install_commit_discipline.1 AutoInstall.cexEnvGood true
      false false [2] "/packages/x.whl" "/venv/x/1.0" 2 (by decide)
  · exact auto_install_commit_discipline.2.2.1 AutoInstall.cexEnvImportFail
      [⟨"u", "2"⟩] 2 [] none ⟨"u", "2"⟩
      ⟨"/packages/x.whl", "/venv/x/1.0"⟩ rfl rfl rfl rfl
  · exact auto_install_commit_discipline.2.2.2.1
      AutoInstall.cexEnvInstallFail [⟨"u", "2"⟩] 2 []
      ⟨"/packages/x.whl", "/venv/x/1.0"⟩ ⟨"u", "2"⟩ rfl rfl rfl
  · exact auto_install_commit_discipline.2.2.2.2.1
      AutoInstall.cexEnvInstallFail [⟨"u", "2"⟩] true 2 [] ⟨"u", "2"⟩
      rfl rfl rfl
  · refine (auto_install_commit_discipline.2.2.2.2.2
      AutoInstall.cexEnvImportFail true [⟨"u", "2"⟩] [2] rfl rfl ?_
      True.intro).1
    intro H hm
    rw [List.mem_singleton] at hm
    subst hm
    exact ⟨⟨⟨"u", "2"⟩, List.mem_singleton_self _, by decide⟩, rfl,
      Or.inr rfl⟩

namespace Compat

/-- The classes of the modelled annotation universe: the numeric tower
(`numbers` ABCs plus bool/int/float), and some `collections.abc`
containers with their builtin implementations. -/
inductive ClassName
  | number | boolCls | integral | rational | realCls | complexCls
  | intCls | floatCls | strCls | listCls | sequenceCls | dictCls
  | mappingCls
deriving DecidableEq, Repr

/-- `issubclass` on the modelled universe: reflexive, with
bool ⊆ int ⊆ Integral ⊆ Rational ⊆ Real ⊆ Complex ⊆ Number,
float ⊆ Real, str/list ⊆ Sequence, dict ⊆ Mapping. -/
def isSub (x y : ClassName) : Bool :=
  x == y ||
  match x, y with
  | .boolCls, .intCls | .boolCls, .integral | .boolCls, .rational
  | .boolCls, .realCls | .boolCls, .complexCls | .boolCls, .number => true
  | .intCls, .integral | .intCls, .rational | .intCls, .realCls
  | .intCls, .complexCls | .intCls, .number => true
  | .integral, .rational | .integral, .realCls | .integral, .complexCls
  | .integral, .number => true
  | .rational, .realCls | .rational, .complexCls | .rational, .number => true
  | .realCls, .complexCls | .realCls, .number => true
  | .complexCls, .number => true
  | .floatCls, .realCls | .floatCls, .complexCls | .floatCls, .number => true
  | .strCls, .sequenceCls => true
  | .listCls, .sequenceCls => true
  | .dictCls, .mappingCls => true
  | _, _ => false

/-- `numerics = [bool, Integral, Rational, Real, Complex]`
(src/use/pimp.py line 1071). -/
def numerics : List ClassName :=
  [.boolCls, .integral, .rational, .realCls, .complexCls]

/-- The `for X in numerics: if issubclass(x, X): break` loop of `_check`:
the first tower class the argument is a subclass of; with no break, the
loop variable is left at the last element (Complex). -/
def towerOf (c : ClassName) : ClassName :=
  match numerics.find? (fun X => isSub c X) with
  | some X => X
  | none => .complexCls

/-- A type annotation: `Any`, a plain class, or a parameterized container
(`get_origin`/`get_args` see the origin and the argument list). -/
inductive Ann
  | any
  | cls (c : ClassName)
  | container (origin : ClassName) (args : List Ann)

theorem className_sizeOf (c : ClassName) : sizeOf c = 1 := by
  cases c <;> rfl

mutual
/-- `_check` from src/use/pimp.py lines 1149-1222.  `Any` on the old side
accepts anything; `Any` on the new side is rejected; two plain classes both
under `Number` are first normalized through the tower; then
`X := get_origin(x) or x`, `Y := get_origin(y) or y` and the verdict is
`issubclass(Y, X)` together with the element-wise check of
`zip_longest(get_args(x), get_args(y), fillvalue=Any)` (for two plain
classes both argument tuples are empty, so `all` of the empty zip is
True). -/
def check : Ann → Ann → Bool
  | .any, _ => true
  | .cls _, .any => false
  | .container _ _, .any => false
  | .cls c, .cls d =>
    if isSub c .number && isSub d .number then
      isSub (towerOf d) (towerOf c)
    else
      isSub d c
  | .cls c, .container o bs =>
    if isSub o c then checkZip [] bs else false
  | .container o as, .cls d =>
    if isSub d o then checkZip as [] else false
  | .container o as, .container p bs =>
    if isSub p o then checkZip as bs else false
termination_by x y => sizeOf x + sizeOf y
decreasing_by
  all_goals simp_wf
  all_goals try simp only [className_sizeOf]
  all_goals omega

/-- `all(_check(x, y) for x, y in zip_longest(xs, ys, fillvalue=Any))`. -/
def checkZip : List Ann → List Ann → Bool
  | [], [] => true
  | [], b :: bs => check .any b && checkZip [] bs
  | a :: as, [] => check a .any && checkZip as []
  | a :: as, b :: bs => check a b && checkZip as bs
termination_by as bs => sizeOf as + sizeOf bs
decreasing_by
  all_goals simp_wf
  all_goals omega
end

end Compat

namespace Compat

/-- `inspect.Parameter.kind` values. -/
inductive ParamKind
  | positionalOnly | positionalOrKeyword | varPositional | keywordOnly
  | varKeyword
deriving DecidableEq, Repr

/-- One signature parameter: its name and its annotation (`none` models
`inspect._empty`, an unannotated slot). -/
structure Param where
  name : String
  kind : ParamKind
  ann : Option Ann

/-- A callable's signature: parameters in declaration order plus the
return annotation. -/
structure Func where
  params : List Param
  ret : Option Ann

/-- The parameter-routing test in `_is_compatible`:
`v.kind is v.VAR_KEYWORD or v.POSITIONAL_OR_KEYWORD`.  The second operand
is the enum member `POSITIONAL_OR_KEYWORD` itself — a truthy object — so
the disjunction is always true and every parameter lands in `kwargs`. -/
def posOrKeywordTruthy : Bool := true

def kindSendsToKwargs (k : ParamKind) : Bool :=
  (k == ParamKind.varKeyword) || posOrKeywordTruthy

/-- `result if result is not inspect._empty else Any`. -/
def annOrAny : Option Ann → Ann
  | some a => a
  | none => .any

/-- `sorted(kwargs)` sorts the (name, Parameter) pairs, i.e. by name
(names are unique within one signature). -/
def insertByName (p : Param) : List Param → List Param
  | [] => [p]
  | q :: qs => if p.name ≤ q.name then p :: q :: qs else q :: insertByName p qs

def sortByName (ps : List Param) : List Param :=
  ps.foldr insertByName []

/-- `_extracted_from__is_compatible_`: positional annotations in order,
then keyword annotations sorted by name, then the return annotation, each
defaulting to `Any` when unannotated. -/
def extractSig (f : Func) : List Ann :=
  (f.params.filter (fun p => !(kindSendsToKwargs p.kind))).map
      (fun p => annOrAny p.ann)
    ++ ((sortByName (f.params.filter (fun p => kindSendsToKwargs p.kind))).map
      (fun p => annOrAny p.ann))
    ++ [annOrAny f.ret]

/-- `_is_compatible` (src/use/pimp.py lines 1092-1119): element-wise
`_check` over the two extracted signatures, zipped with `Any` filling. -/
def isCompatible (pre post : Func) : Bool :=
  checkZip (extractSig pre) (extractSig post)

/-- A module attribute: a callable with a signature, or a non-callable
object. -/
inductive PyObj
  | callable (f : Func)
  | plain

/-- A module's `__dict__` in iteration order (keys unique). -/
abbrev ModuleUnit := List (String × PyObj)

/-- `getattr(post, name)` as lookup in the module dict. -/
def getattrFind (m : ModuleUnit) (n : String) : Option PyObj :=
  (List.find? (fun kv => kv.1 == n) m).map (fun kv => kv.2)

/-- `_modules_are_compatible` (src/use/pimp.py lines 1078-1089): for every
callable attribute of the old unit, the new unit must have a same-named
attribute (a missing one returns False via the caught AttributeError) and
the pair must be `_is_compatible`.  When the new attribute exists but is
not callable, `inspect.signature` inside `_is_compatible` raises a
TypeError which nothing catches — modelled as `.error`. -/
def modulesAreCompatible : ModuleUnit → ModuleUnit → Except String Bool
  | [], _ => .ok true
  | (n, o) :: rest, post =>
    match o with
    | .plain => modulesAreCompatible rest post
    | .callable f =>
      match getattrFind post n with
      | none => .ok false
      | some .plain => .error "TypeError: not a callable object"
      | some (.callable g) =>
        if isCompatible f g then modulesAreCompatible rest post
        else .ok false

end Compat

namespace Compat

theorem isSub_refl (c : ClassName) : isSub c c = true := by
  cases c <;> rfl

theorem checkZip_refl :
    ∀ as : List Ann, (∀ a ∈ as, check a a = true) → checkZip as as = true := by
  intro as
  induction as with
  | nil => intro _; simp [checkZip]
  | cons a rest ih =>
    intro h
    have h1 := h a (List.mem_cons_self a rest)
    have h2 := ih fun b hb => h b (List.mem_cons_of_mem a hb)
    simp [checkZip, h1, h2]

theorem check_refl (x : Ann) : check x x = true := by
  have main : ∀ (n : Nat) (y : Ann), sizeOf y ≤ n → check y y = true := by
    intro n
    induction n with
    | zero =>
      intro y hy
      cases y <;> simp at hy
    | succ m ih =>
      intro y hy
      match y with
      | .any => simp [check]
      | .cls c =>
        simp only [check]
        split
        · exact isSub_refl _
        · exact isSub_refl _
      | .container o as =>
        simp only [check, isSub_refl, if_true]
        apply checkZip_refl
        intro a ha
        apply ih
        have h1 : sizeOf a < sizeOf as := List.sizeOf_lt_of_mem ha
        have h2 : sizeOf (Ann.container o as) = 1 + sizeOf o + sizeOf as :=
          by simp
        rw [h2, className_sizeOf] at hy
        omega
  exact main (sizeOf x) x (Nat.le_refl _)

theorem check_any_left (y : Ann) : check .any y = true := by
  simp [check]

theorem check_to_any_false (x : Ann) (h : x ≠ .any) : check x .any = false := by
  match x with
  | .any => exact absurd rfl h
  | .cls c => simp [check]
  | .container o as => simp [check]

theorem checkZip_false_at :
    ∀ (i : Nat) (as bs : List Ann) (x : Ann),
      as.get? i = some x → x ≠ .any → bs.get? i = some .any →
      checkZip as bs = false := by
  intro i
  induction i with
  | zero =>
    intro as bs x ha hx hb
    cases as with
    | nil => simp at ha
    | cons a as2 =>
      cases bs with
      | nil => simp at hb
      | cons b bs2 =>
        simp only [List.get?] at ha hb
        obtain rfl := Option.some.inj ha
        obtain rfl := Option.some.inj hb
        simp [checkZip, check_to_any_false a hx]
  | succ j ih =>
    intro as bs x ha hx hb
    cases as with
    | nil => simp at ha
    | cons a as2 =>
      cases bs with
      | nil => simp at hb
      | cons b bs2 =>
        simp only [List.get?] at ha hb
        have := ih as2 bs2 x ha hx hb
        simp [checkZip, this]

end Compat

namespace Compat

theorem kindSendsToKwargs_true (k : ParamKind) :
    kindSendsToKwargs k = true := by
  cases k <;> rfl

theorem insertByName_length (p : Param) :
    ∀ l : List Param, (insertByName p l).length = l.length + 1 := by
  intro l
  induction l with
  | nil => rfl
  | cons q qs ih =>
    simp only [insertByName]
    split
    · simp
    · simp [ih]

theorem sortByName_length (ps : List Param) :
    (sortByName ps).length = ps.length := by
  induction ps with
  | nil => rfl
  | cons p qs ih =>
    simp only [sortByName, List.foldr_cons] at ih ⊢
    rw [insertByName_length, ih]
    rfl

theorem extractSig_eq (f : Func) :
    extractSig f =
      (sortByName f.params).map (fun p => annOrAny p.ann)
        ++ [annOrAny f.ret] := by
  unfold extractSig
  have h1 : f.params.filter (fun p => !(kindSendsToKwargs p.kind)) = [] := by
    rw [List.filter_eq_nil_iff]
    intro p _
    simp [kindSendsToKwargs_true]
  have h2 : f.params.filter (fun p => kindSendsToKwargs p.kind) = f.params :=
    List.filter_eq_self.mpr fun p _ => kindSendsToKwargs_true p.kind
  rw [h1, h2]
  simp

theorem extractSig_get_last (f : Func) :
    (extractSig f).get? f.params.length = some (annOrAny f.ret) := by
  rw [extractSig_eq]
  have hlen : ((sortByName f.params).map
      (fun p => annOrAny p.ann)).length = f.params.length := by
    rw [List.length_map, sortByName_length]
  rw [List.get?_append_right (by omega)]
  rw [hlen]
  simp

theorem isCompatible_false_at (f g : Func) (i : Nat) (x : Ann)
    (hf : (extractSig f).get? i = some x) (hx : x ≠ .any)
    (hg : (extractSig g).get? i = some .any) :
    isCompatible f g = false :=
  checkZip_false_at i (extractSig f) (extractSig g) x hf hx hg

theorem isCompatible_ret_broadening (f g : Func)
    (hlen : f.params.length = g.params.length)
    (hr : annOrAny f.ret ≠ .any) (hg : g.ret = none) :
    isCompatible f g = false := by
  apply isCompatible_false_at f g f.params.length (annOrAny f.ret)
    (extractSig_get_last f) hr
  rw [hlen]
  have := extractSig_get_last g
  rw [hg] at this
  exact this

theorem modulesCompat_no_raise :
    ∀ pre post : ModuleUnit,
      (∀ n f, (n, PyObj.callable f) ∈ pre →
        getattrFind post n ≠ some PyObj.plain) →
      ∃ b, modulesAreCompatible pre post = .ok b := by
  intro pre
  induction pre with
  | nil => intro post _; exact ⟨true, rfl⟩
  | cons kv rest ih =>
    intro post h
    obtain ⟨n, o⟩ := kv
    match o with
    | .plain =>
      simpa [modulesAreCompatible] using
        ih post fun n2 f2 hm => h n2 f2 (List.mem_cons_of_mem _ hm)
    | .callable f =>
      have hnp : getattrFind post n ≠ some PyObj.plain :=
        h n f (List.mem_cons_self _ _)
      simp only [modulesAreCompatible]
      match hg : getattrFind post n with
      | none => exact ⟨false, rfl⟩
      | some .plain => exact absurd hg hnp
      | some (.callable g) =>
        by_cases hc : isCompatible f g = true
        · obtain ⟨b, hb⟩ :=
            ih post fun n2 f2 hm => h n2 f2 (List.mem_cons_of_mem _ hm)
          exact ⟨b, by simp [hc, hb]⟩
        · exact ⟨false, by simp [hc]⟩

theorem modulesCompat_missing_attr :
    ∀ pre post : ModuleUnit,
      (∀ n f, (n, PyObj.callable f) ∈ pre →
        getattrFind post n ≠ some PyObj.plain) →
      (∃ n f, (n, PyObj.callable f) ∈ pre ∧ getattrFind post n = none) →
      modulesAreCompatible pre post = .ok false := by
  intro pre
  induction pre with
  | nil =>
    intro post _ hex
    obtain ⟨n, f, hm, _⟩ := hex
    cases hm
  | cons kv rest ih =>
    intro post hnp hex
    obtain ⟨n, f, hm, hnone⟩ := hex
    obtain ⟨n0, o0⟩ := kv
    match o0 with
    | .plain =>
      have hm2 : (n, PyObj.callable f) ∈ rest := by
        rcases List.mem_cons.mp hm with he | hr
        · cases he
        · exact hr
      simpa [modulesAreCompatible] using
        ih post (fun n2 f2 h2 => hnp n2 f2 (List.mem_cons_of_mem _ h2))
          ⟨n, f, hm2, hnone⟩
    | .callable f0 =>
      simp only [modulesAreCompatible]
      match hg : getattrFind post n0 with
      | none => rfl
      | some .plain =>
        exact absurd hg (hnp n0 f0 (List.mem_cons_self _ _))
      | some (.callable g) =>
        have hm2 : (n, PyObj.callable f) ∈ rest := by
          rcases List.mem_cons.mp hm with he | hr
          · exfalso
            have hn : n = n0 := congrArg Prod.fst he
            rw [hn] at hnone
            rw [hnone] at hg
            cases hg
          · exact hr
        by_cases hc : isCompatible f0 g = true
        · simpa [hc] using
            ih post (fun n2 f2 h2 => hnp n2 f2 (List.mem_cons_of_mem _ h2))
              ⟨n, f, hm2, hnone⟩
        · simp [hc]

end Compat

namespace Compat

theorem modulesCompat_identical :
    ∀ pre post : ModuleUnit,
      (∀ n f, (n, PyObj.callable f) ∈ pre →
        getattrFind post n = some (PyObj.callable f)) →
      modulesAreCompatible pre post = .ok true := by
  intro pre
  induction pre with
  | nil => intro post _; rfl
  | cons kv rest ih =>
    intro post h
    obtain ⟨n0, o0⟩ := kv
    match o0 with
    | .plain =>
      simpa [modulesAreCompatible] using
        ih post fun n2 f2 hm => h n2 f2 (List.mem_cons_of_mem _ hm)
    | .callable f0 =>
      have hg : getattrFind post n0 = some (PyObj.callable f0) :=
        h n0 f0 (List.mem_cons_self _ _)
      have hc : isCompatible f0 f0 = true := by
        unfold isCompatible
        exact checkZip_refl _ (fun a _ => check_refl a)
      have hrest := ih post fun n2 f2 hm =>
        h n2 f2 (List.mem_cons_of_mem _ hm)
      simp [modulesAreCompatible, hg, hc, hrest]

end Compat

/-- C2: amended claim.  The compatibility check returns incompatible when
some callable attribute of the old unit has no same-named attribute on the
new unit; returns compatible when every old callable finds an identical
signature on the new side; `Any` on the old side accepts any concrete
new-side annotation, while a concrete old-side slot paired with an
unannotated (`Any`) new-side slot — including the return slot — makes the
pair incompatible; and the predicate returns a boolean without raising
provided every new-side attribute matched by an old callable is itself
callable (when such an attribute is a non-callable, `inspect.signature`
raises a TypeError instead of producing a verdict). -/
theorem modules_compatibility_check :
    (∀ pre post : Compat.ModuleUnit,
      (∀ n f, (n, Compat.PyObj.callable f) ∈ pre →
        Compat.getattrFind post n ≠ some Compat.PyObj.plain) →
      (∃ n f, (n, Compat.PyObj.callable f) ∈ pre ∧
        Compat.getattrFind post n = none) →
      Compat.modulesAreCompatible pre post = .ok false) ∧
    (∀ pre post : Compat.ModuleUnit,
      (∀ n f, (n, Compat.PyObj.callable f) ∈ pre →
        Compat.getattrFind post n = some (Compat.PyObj.callable f)) →
      Compat.modulesAreCompatible pre post = .ok true) ∧
    (∀ y : Compat.Ann, Compat.check .any y = true) ∧
    (∀ x : Compat.Ann, x ≠ .any → Compat.check x .any = false) ∧
    (∀ f g : Compat.Func, f.params.length = g.params.length →
      Compat.annOrAny f.ret ≠ .any → g.ret = none →
      Compat.isCompatible f g = false) ∧
    (∀ pre post : Compat.ModuleUnit,
      (∀ n f, (n, Compat.PyObj.callable f) ∈ pre →
        Compat.getattrFind post n ≠ some Compat.PyObj.plain) →
      ∃ b, Compat.modulesAreCompatible pre post = .ok b) :=
  ⟨Compat.modulesCompat_missing_attr, Compat.modulesCompat_identical,
   Compat.check_any_left, Compat.check_to_any_false,
   Compat.isCompatible_ret_broadening, Compat.modulesCompat_no_raise⟩

/-- C2: counterexample to the "never raises" part of the claim as stated.
When the old unit's callable `f` matches a non-callable attribute `f` on
the new unit (a function turned into a constant by the edit),
`inspect.signature(post_obj)` raises a TypeError that
`_modules_are_compatible` does not catch, so the check is not a total
boolean predicate. -/
theorem modules_compatibility_raises_counterexample :
    Compat.modulesAreCompatible
        [("f", Compat.PyObj.callable ⟨[], none⟩)]
        [("f", Compat.PyObj.plain)]
      = .error "TypeError: not a callable object" := rfl

theorem modules_compatibility_check_witness :
    Compat.modulesAreCompatible
        [("f", Compat.PyObj.callable ⟨[], none⟩)] [] = .ok false ∧
    Compat.modulesAreCompatible
        [("f", Compat.PyObj.callable ⟨[], none⟩)]
        [("f", Compat.PyObj.callable ⟨[], none⟩)] = .ok true ∧
    Compat.check .any (.cls .intCls) = true ∧
    Compat.check (.cls .intCls) .any = false ∧
    Compat.isCompatible ⟨[], some (.cls .intCls)⟩ ⟨[], none⟩ = false ∧
    (∃ b, Compat.modulesAreCompatible
        [("f", Compat.PyObj.callable ⟨[], none⟩)] [] = .ok b) := by
  refine ⟨?_, ?_, ?_, ?_, ?_, ?_⟩
  · exact modules_compatibility_check.1 _ _
      (by intro n f hm hc; simp [Compat.getattrFind] at hc)
      ⟨"f", ⟨[], none⟩, List.mem_singleton_self _, rfl⟩
  · refine modules_compatibility_check.2.1 _ _ ?_
    intro n f hm
    have h := List.mem_singleton.mp hm
    injection h with h1 h2
    subst h1
    injection h2 with h3
    subst h3
    rfl
  · exact modules_compatibility_check.2.2.1 (.cls .intCls)
  · exact modules_compatibility_check.2.2.2.1 (.cls .intCls)
      (by intro h; cases h)
  · exact modules_compatibility_check.2.2.2.2.1 ⟨[], some (.cls .intCls)⟩
      ⟨[], none⟩ rfl (by simp [Compat.annOrAny]) rfl
  · exact modules_compatibility_check.2.2.2.2.2 _ _
      (by intro n f hm hc; simp [Compat.getattrFind] at hc)

namespace Reloader

/-- The keyword-only parameters `_build_mod` accepts
(src/use/pimp.py line 952), `pkg_name` having a default. -/
def buildModAccepted : List String :=
  ["mod_name", "code", "initial_globals", "module_path", "pkg_name"]

/-- The keyword parameters of `_build_mod` without a default value. -/
def buildModRequired : List String :=
  ["mod_name", "code", "initial_globals", "module_path"]

/-- The keywords `ModuleReloader.run_threaded` passes to `_build_mod`
(src/use/main.py lines 196-201). -/
def runThreadedCallKwargs : List String :=
  ["module_name", "code", "initial_globals", "module_path"]

/-- Python's keyword-call contract: the call raises TypeError unless every
provided keyword is accepted and every no-default keyword is provided. -/
def kwargsAccepted (provided : List String) : Bool :=
  provided.all (fun k => buildModAccepted.contains k) &&
    buildModRequired.all (fun k => provided.contains k)

/-- Observable outcome of one iteration of the `run_threaded` loop. -/
inductive StepOutcome
  | sleptNoRebuild
  | swapped
  | keptOldNoSleep
  | uncaughtError (msg : String)
deriving DecidableEq, Repr

/-- The reloader's per-path state: the last-seen content hash and the
proxy's current implementation. -/
structure LoopState where
  lastFilehash : Option Nat
  impl : Compat.ModuleUnit

/-- One iteration of `ModuleReloader.run_threaded`
(src/use/main.py lines 187-208): read the file and hash it; unchanged ⇒
update `last_filehash` and sleep; changed ⇒ call
`_build_mod(module_name=..., ...)`, run `_modules_are_compatible` against
the live proxy, `continue` (keeping the old unit, not updating the hash
and not sleeping) when incompatible, else swap the proxy implementation.
Only `except KeyError` guards the body, so any other exception — such as
the TypeError the `_build_mod` call raises because its parameter is named
`mod_name`, not `module_name` — propagates and kills the thread. -/
def runThreadedStep (st : LoopState) (fileHash : Nat)
    (built : Compat.ModuleUnit) : StepOutcome × LoopState :=
  if some fileHash == st.lastFilehash then
    (.sleptNoRebuild, ⟨some fileHash, st.impl⟩)
  else
    if kwargsAccepted runThreadedCallKwargs then
      match Compat.modulesAreCompatible st.impl built with
      | .error e => (.uncaughtError e, st)
      | .ok false => (.keptOldNoSleep, st)
      | .ok true => (.swapped, ⟨some fileHash, built⟩)
    else
      (.uncaughtError
        "TypeError: _build_mod() got an unexpected keyword argument", st)

end Reloader

/-- C9: the claim is right about the unchanged-hash path, but the code is
wrong on the changed path: an unchanged content hash causes no rebuild and
no swap, while a changed hash makes `run_threaded` call
`_build_mod(module_name=...)` whose only matching parameter is `mod_name`
(and all of whose callers pass `module_name`) — the resulting TypeError is
not a KeyError, escapes the `try`, and kills the reloader thread before
any compatibility check or swap can happen. -/
theorem reloader_step_behaviour :
    (∀ (st : Reloader.LoopState) (h : Nat) (built : Compat.ModuleUnit),
      st.lastFilehash = some h →
      Reloader.runThreadedStep st h built
        = (.sleptNoRebuild, ⟨some h, st.impl⟩)) ∧
    (Reloader.kwargsAccepted Reloader.runThreadedCallKwargs = false ∧
      "module_name" ∈ Reloader.runThreadedCallKwargs ∧
      "module_name" ∉ Reloader.buildModAccepted ∧
      "mod_name" ∈ Reloader.buildModRequired ∧
      "mod_name" ∉ Reloader.runThreadedCallKwargs) ∧
    (∀ (st : Reloader.LoopState) (h : Nat) (built : Compat.ModuleUnit),
      st.lastFilehash ≠ some h →
      Reloader.runThreadedStep st h built
        = (.uncaughtError
            "TypeError: _build_mod() got an unexpected keyword argument",
          st)) := by
  refine ⟨?_, by decide, ?_⟩
  · intro st h built he
    have hb : (some h == st.lastFilehash) = true := by
      rw [he]
      exact beq_self_eq_true _
    simp [Reloader.runThreadedStep, hb]
  · intro st h built he
    have hb : (some h == st.lastFilehash) = false := by
      rw [beq_eq_false_iff_ne]
      exact fun hc => he hc.symm
    have hk : Reloader.kwargsAccepted Reloader.runThreadedCallKwargs
        = false := by decide
    simp [Reloader.runThreadedStep, hb, hk]

theorem reloader_step_behaviour_witness :
    Reloader.runThreadedStep ⟨some 5, []⟩ 5 []
        = (.sleptNoRebuild, ⟨some 5, []⟩) ∧
    Reloader.runThreadedStep ⟨some 5, []⟩ 7 []
        = (.uncaughtError
            "TypeError: _build_mod() got an unexpected keyword argument",
          ⟨some 5, []⟩) :=
  ⟨reloader_step_behaviour.1 ⟨some 5, []⟩ 5 [] rfl,
   reloader_step_behaviour.2.2 ⟨some 5, []⟩ 7 [] (by decide)⟩
